import Mathlib

/-!
# kube-api-proxy: a shallow embedding of `main.go`

`main.go` is a single-target HTTP reverse proxy.  It parses `-header "Key: Value"`
flags into a map (`headerFlags.Set`), validates the `-target` URL, and installs one
request handler that appends the configured headers, attaches a captured
`CF_Authorization` cookie, rewrites scheme/host/Host and hands the request to
`httputil.NewSingleHostReverseProxy`; a `ModifyResponse` hook captures the cookie from
upstream responses.

Conventions of the embedding.

* A Go `string` is a `List Char` (`GoString`): the model covers strings that are valid
  UTF-8, one `Char` per rune.  Byte-oriented library functions (URL escaping) go through
  the UTF-8 encoding of each rune.
* A Go `error` result is an `Option GoString` (`none` is `nil`).
* The package-level variable `cfAuthorizationCookie` is threaded as explicit state of
  type `Option Cookie` (`none` is the `nil` pointer).
* Library functions of the Go standard library that the program calls are modelled next
  to the program, each after the Go function of the same name.  `url.Parse` and the
  parser of a `Set-Cookie` line are taken as parameters: every theorem holds for whatever
  parser is supplied.  The examples use a table of `url.Parse` results and a model of
  `http.ParseSetCookie`.
* `fmt.Printf` logging in the request handler has no effect on the request and is left
  out; the start-up messages are kept as effects.
* Handlers are first run one at a time (`step`, `run`); concurrent handlers are a second
  transition system (`raceStep`, `raceRun`) in which the hook's test and its assignment
  are separate steps.
-/

namespace KubeApiProxy

/-- A Go string, one `Char` per rune. -/
abbrev GoString := List Char

/-! ## Package `strings` -/

namespace strings

/-- Go `strings.HasPrefix`. -/
def HasPrefix (s pre : GoString) : Bool := pre.isPrefixOf s

/-- Go `strings.HasSuffix`. -/
def HasSuffix (s suf : GoString) : Bool := suf.isSuffixOf s

/-- Go `strings.Index(s, sep)`: the index of the first instance of `sep` in `s`;
`none` stands for the result `-1`. -/
def Index : GoString → GoString → Option Nat
  | [], sep => if sep = [] then some 0 else none
  | c :: t, sep => if sep.isPrefixOf (c :: t) then some 0 else (Index t sep).map (· + 1)

/-- The loop of Go `strings.Count` for a non-empty `substr`: cut after each instance found. -/
def countLoop (substr : GoString) : Nat → GoString → Nat
  | 0, _ => 0
  | fuel + 1, s =>
    match Index s substr with
    | none => 0
    | some i => countLoop substr fuel (s.drop (i + substr.length)) + 1

/-- Go `strings.Count(s, substr)`: the number of non-overlapping instances of `substr`
(one more than the number of runes when `substr` is empty). -/
def Count (s substr : GoString) : Nat :=
  if substr = [] then s.length + 1 else countLoop substr (s.length + 1) s

/-- Go `strings.explode(s, n)`: split into single runes, at most `n` pieces, the last
piece holding the rest. -/
def explode (s : GoString) (n : Int) : List GoString :=
  let l : Int := s.length
  let n := if n < 0 ∨ n > l then l else n
  let k := (n - 1).toNat
  (s.take k).map (fun c => [c]) ++ (if n > 0 then [s.drop k] else [])

/-- The `for i < n` loop of Go `strings.genSplit`; the first argument counts the
iterations that remain (`n - 1 - i`). -/
def genSplitLoop (sep : GoString) (sepSave : Nat) : Nat → GoString → List GoString
  | 0, s => [s]
  | k + 1, s =>
    match Index s sep with
    | none => [s]
    | some m => s.take (m + sepSave) :: genSplitLoop sep sepSave k (s.drop (m + sep.length))

/-- Go `strings.genSplit(s, sep, sepSave, n)`.  The bound `n > len(s)+1` is taken on the
number of runes; the result is the same as with the number of bytes, since a non-empty
separator occurs at most once per rune. -/
def genSplit (s sep : GoString) (sepSave : Nat) (n : Int) : List GoString :=
  if n = 0 then []
  else if sep = [] then explode s n
  else
    let n1 : Int := if n < 0 then (Count s sep : Int) + 1 else n
    let n2 : Int := if n1 > (s.length : Int) + 1 then (s.length : Int) + 1 else n1
    genSplitLoop sep sepSave (n2 - 1).toNat s

/-- Go `strings.SplitN(s, sep, n)`. -/
def SplitN (s sep : GoString) (n : Int) : List GoString := genSplit s sep 0 n

/-- Go `strings.Split(s, sep)`. -/
def Split (s sep : GoString) : List GoString := genSplit s sep 0 (-1)

/-- Go `strings.Cut(s, sep)`: the text before and after the first instance of `sep`, and
whether `sep` was found. -/
def Cut (s sep : GoString) : GoString × GoString × Bool :=
  match Index s sep with
  | some i => (s.take i, s.drop (i + sep.length), true)
  | none => (s, [], false)

/-- Go `unicode.IsSpace`: the Latin-1 spaces `\t \n \v \f \r`, space, U+0085, U+00A0, and
the other code points of the Unicode `White_Space` property. -/
def isSpace (c : Char) : Bool :=
  let n := c.toNat
  (9 ≤ n && n ≤ 13) || n == 0x20 || n == 0x85 || n == 0xA0 || n == 0x1680 ||
  (0x2000 ≤ n && n ≤ 0x200a) || n == 0x2028 || n == 0x2029 || n == 0x202f ||
  n == 0x205f || n == 0x3000

/-- Go `strings.TrimSpace`: remove all leading and trailing white space. -/
def TrimSpace (s : GoString) : GoString := (s.dropWhile isSpace).rdropWhile isSpace

end strings

/-! ## Package `net/textproto` -/

namespace textproto

/-- Go `textproto.validHeaderFieldByte`: the token characters of RFC 7230, that is the
digits, the letters and the fifteen marks listed in the bitmap (in code-point order:
exclamation mark, number sign, dollar, percent, ampersand, apostrophe, asterisk, plus,
hyphen, dot, caret, underscore, grave accent, vertical bar, tilde). -/
def validHeaderFieldByte (c : Char) : Bool :=
  let n := c.toNat
  (0x30 ≤ n && n ≤ 0x39) || (0x61 ≤ n && n ≤ 0x7a) || (0x41 ≤ n && n ≤ 0x5a) ||
  n == 0x21 || n == 0x23 || n == 0x24 || n == 0x25 || n == 0x26 || n == 0x27 ||
  n == 0x2a || n == 0x2b || n == 0x2d || n == 0x2e || n == 0x5e || n == 0x5f ||
  n == 0x60 || n == 0x7c || n == 0x7e

/-- The case distance `toLower = 'a' - 'A'` of the Go source. -/
def toLower : Nat := 32

/-- The second loop of Go `textproto.canonicalMIMEHeaderKey`: first letter upper case and
upper case after each dash, lower case elsewhere. -/
def canonicalLoop : Bool → GoString → GoString
  | _, [] => []
  | upper, c :: t =>
    let c1 : Char :=
      if upper && ('a' ≤ c && c ≤ 'z') then Char.ofNat (c.toNat - toLower)
      else if !upper && ('A' ≤ c && c ≤ 'Z') then Char.ofNat (c.toNat + toLower)
      else c
    c1 :: canonicalLoop (c1 == '-') t

/-- Go `textproto.canonicalMIMEHeaderKey(a)`: a key holding a byte that is no token
character is returned unchanged (with `ok` false unless the only such bytes are spaces);
any other key is put in canonical case. -/
def canonicalMIMEHeaderKey (a : GoString) : GoString × Bool :=
  if a = [] then ([], false)
  else if a.any (fun c => !validHeaderFieldByte c && c != ' ') then (a, false)
  else if a.any (fun c => !validHeaderFieldByte c) then (a, true)
  else (canonicalLoop true a, true)

/-- The quick check at the head of Go `textproto.CanonicalMIMEHeaderKey`: `rest` is what
remains to be scanned of `s`, `upper` the flag of the loop. -/
def quickCheck (s : GoString) : Bool → GoString → GoString
  | _, [] => s
  | upper, c :: rest =>
    if !validHeaderFieldByte c then s
    else if upper && ('a' ≤ c && c ≤ 'z') then (canonicalMIMEHeaderKey s).1
    else if !upper && ('A' ≤ c && c ≤ 'Z') then (canonicalMIMEHeaderKey s).1
    else quickCheck s (c == '-') rest

/-- Go `textproto.CanonicalMIMEHeaderKey(s)`. -/
def CanonicalMIMEHeaderKey (s : GoString) : GoString := quickCheck s true s

/-- Go `textproto.isASCIISpace`. -/
def isASCIISpace (c : Char) : Bool := c == ' ' || c == '\t' || c == '\n' || c == '\r'

/-- Go `textproto.TrimString`: trim leading and trailing ASCII space. -/
def TrimString (s : GoString) : GoString := (s.dropWhile isASCIISpace).rdropWhile isASCIISpace

end textproto

/-! ## `http.Header` -/

/-- Go `http.Header` (`map[string][]string`): the value list stored under each key,
`none` for a key that is absent. -/
abbrev Header := GoString → Option (List GoString)

/-- The header map with no entry. -/
def Header.empty : Header := fun _ => none

/-- Go `Header.Add(key, value)`: `h[k] = append(h[k], value)` under the canonical key `k`. -/
def Header.Add (h : Header) (key value : GoString) : Header :=
  let k := textproto.CanonicalMIMEHeaderKey key
  fun x => if x = k then some ((h k).getD [] ++ [value]) else h x

/-- Go `Header.Set(key, value)`: `h[k] = []string{value}` under the canonical key `k`. -/
def Header.Set (h : Header) (key value : GoString) : Header :=
  let k := textproto.CanonicalMIMEHeaderKey key
  fun x => if x = k then some [value] else h x

/-- Go `Header.Get(key)`: the first value under the canonical key, `""` when there is none. -/
def Header.Get (h : Header) (key : GoString) : GoString :=
  match h (textproto.CanonicalMIMEHeaderKey key) with
  | some (v :: _) => v
  | _ => []

/-- Go `Header.Values(key)`: all values under the canonical key. -/
def Header.Values (h : Header) (key : GoString) : List GoString :=
  (h (textproto.CanonicalMIMEHeaderKey key)).getD []

/-! ## Package `net/url` -/

namespace url

/-- Go `url.URL`.  `User` holds the username and, when set, the password. -/
structure URL where
  Scheme : GoString
  Opaque : GoString
  User : Option (GoString × Option GoString)
  Host : GoString
  Path : GoString
  RawPath : GoString
  OmitHost : Bool
  ForceQuery : Bool
  RawQuery : GoString
  Fragment : GoString
  RawFragment : GoString
deriving DecidableEq

/-- The UTF-8 encoding of a rune, as the bytes the Go string holds. -/
def utf8Bytes (c : Char) : List Nat :=
  let n := c.toNat
  if n < 0x80 then [n]
  else if n < 0x800 then [0xC0 + n / 64, 0x80 + n % 64]
  else if n < 0x10000 then [0xE0 + n / 4096, 0x80 + n / 64 % 64, 0x80 + n % 64]
  else [0xF0 + n / 262144, 0x80 + n / 4096 % 64, 0x80 + n / 64 % 64, 0x80 + n % 64]

/-- The bytes of a Go string. -/
def bytes (s : GoString) : List Nat := s.flatMap utf8Bytes

/-- Go `url.shouldEscape(c, encodePath)`, the only mode `EscapedPath` uses: letters,
digits, the marks `- _ . ~` and the reserved characters `$ & + , / : ; = @` stay; `?` and
every other byte (all bytes of a rune outside ASCII among them) must be escaped. -/
def shouldEscape (c : Char) : Bool :=
  if ('a' ≤ c && c ≤ 'z') || ('A' ≤ c && c ≤ 'Z') || ('0' ≤ c && c ≤ '9') then false
  else if c == '-' || c == '_' || c == '.' || c == '~' then false
  else if c == '$' || c == '&' || c == '+' || c == ',' || c == '/' || c == ':' ||
      c == ';' || c == '=' || c == '?' || c == '@' then c == '?'
  else true

/-- The digit `"0123456789ABCDEF"[d]` of the Go constant `upperhex`. -/
def upperhex (d : Nat) : Char :=
  if d < 10 then Char.ofNat (0x30 + d) else Char.ofNat (0x41 + (d - 10))

/-- The three characters `%XY` written for an escaped byte. -/
def pctEncode (b : Nat) : GoString := ['%', upperhex (b / 16), upperhex (b % 16)]

/-- Go `url.escape(s, encodePath)`. -/
def escape (s : GoString) : GoString :=
  s.flatMap (fun c => if shouldEscape c then (utf8Bytes c).flatMap pctEncode else [c])

/-- Go `url.ishex`. -/
def ishex (c : Char) : Bool :=
  ('0' ≤ c && c ≤ '9') || ('a' ≤ c && c ≤ 'f') || ('A' ≤ c && c ≤ 'F')

/-- Go `url.unhex`. -/
def unhex (c : Char) : Nat :=
  if '0' ≤ c && c ≤ '9' then c.toNat - 0x30
  else if 'a' ≤ c && c ≤ 'f' then c.toNat - 0x61 + 10
  else if 'A' ≤ c && c ≤ 'F' then c.toNat - 0x41 + 10
  else 0

/-- Go `url.unescape(s, encodePath)`, giving the bytes of the result: `none` is the
`EscapeError` for a `%` that is not followed by two hex digits. -/
def unescape : GoString → Option (List Nat)
  | [] => some []
  | '%' :: h1 :: h2 :: t =>
    if ishex h1 && ishex h2 then (unescape t).map (fun r => (unhex h1 * 16 + unhex h2) :: r)
    else none
  | c :: t => if c = '%' then none else (unescape t).map (fun r => utf8Bytes c ++ r)

/-- Go `url.validEncoded(s, encodePath)`. -/
def validEncoded (s : GoString) : Bool :=
  s.all (fun c =>
    if c == '!' || c == '$' || c == '&' || c.toNat == 0x27 || c == '(' || c == ')' ||
        c == '*' || c == '+' || c == ',' || c == ';' || c == '=' || c == ':' || c == '@' then true
    else if c == '[' || c == ']' then true
    else if c == '%' then true
    else !shouldEscape c)

/-- Go `(*URL).EscapedPath`: `RawPath` when it is a valid encoding of `Path`, else the
escaping of `Path` computed by `escape`. -/
def URL.EscapedPath (u : URL) : GoString :=
  if u.RawPath ≠ [] ∧ validEncoded u.RawPath = true ∧ unescape u.RawPath = some (bytes u.Path) then
    u.RawPath
  else if u.Path = ['*'] then ['*']
  else escape u.Path

end url

/-! ## `main.go`: the header flag -/

/-- The Go type `headerFlags` (`map[string]string`), kept as a list of entries with
distinct keys.  The position of an entry in the list carries no meaning: iteration over
a Go map visits the entries in an unspecified order (see `rangeOrder`). -/
abbrev headerFlags := List (GoString × GoString)

/-- Map read `h[k]` with the comma-ok form: `none` when the key is absent. -/
def headerFlags.index (h : headerFlags) (k : GoString) : Option GoString :=
  match h with
  | [] => none
  | (k1, v1) :: t => if k1 = k then some v1 else headerFlags.index t k

/-- Map assignment `h[k] = v`: overwrite the entry stored under exactly `k`, or add one. -/
def headerFlags.assign (h : headerFlags) (k v : GoString) : headerFlags :=
  match h with
  | [] => [(k, v)]
  | (k1, v1) :: t => if k1 = k then (k, v) :: t else (k1, v1) :: headerFlags.assign t k v

/-- Go `strings.Join(elems, sep)`. -/
def strings.Join (elems : List GoString) (sep : GoString) : GoString :=
  sep.intercalate elems

/-- The method `headerFlags.String` (main.go lines 17-23), for the order `order` in which
the `range` loop visits the entries. -/
def headerFlags.String (order : List (GoString × GoString)) : GoString :=
  strings.Join (order.map (fun kv => kv.1 ++ ": ".toList ++ kv.2)) ", ".toList

/-- The iteration orders `for key, value := range h` may take: every arrangement of the
entries of the map. -/
def rangeOrder (h : headerFlags) (order : List (GoString × GoString)) : Prop :=
  order.Perm h

/-- The method `headerFlags.Set` (main.go lines 25-32).  The receiver is a map, so the
assignment is visible to the caller: the result is the map after the call together with
the returned error. -/
def headerFlags.Set (h : headerFlags) (value : GoString) : headerFlags × Option GoString :=
  let parts := strings.SplitN value [':'] 2
  if parts.length ≠ 2 then
    (h, some "invalid header format (expected 'Key: Value')".toList)
  else
    (h.assign (strings.TrimSpace (parts.getD 0 [])) (strings.TrimSpace (parts.getD 1 [])), none)

/-! ## Package `net/http`: requests, responses, cookies -/

open url (URL)

/-- Go `http.Cookie`, with the fields this program reads (`Name`, `Value`, `Quoted`) and
the `Set-Cookie` line it was read from (`Raw`), which holds every other attribute as
received. -/
structure Cookie where
  Name : GoString
  Value : GoString
  Quoted : Bool
  Raw : GoString
deriving DecidableEq

/-- Go `http.Request` as the handler sees it; `Body` is the content of the body. -/
structure Request where
  Method : GoString
  URL : URL
  Host : GoString
  Header : Header
  Body : GoString

/-- Go `http.Response` as the response hook sees it. -/
structure Response where
  StatusCode : Nat
  Header : Header
  Body : GoString

namespace http

/-- Go `http.validCookieValueByte`. -/
def validCookieValueByte (c : Char) : Bool :=
  0x20 ≤ c.toNat && c.toNat < 0x7f && c != '"' && c != ';' && c != '\\'

/-- Go `http.sanitizeOrWarn`: keep the bytes that are valid (the warning is a log line). -/
def sanitizeOrWarn (valid : Char → Bool) (v : GoString) : GoString :=
  if v.all valid then v else v.filter valid

/-- Go `http.sanitizeCookieName`: newline and carriage return become a dash. -/
def sanitizeCookieName (n : GoString) : GoString :=
  n.map (fun c => if c = '\n' ∨ c = '\r' then '-' else c)

/-- Go `http.sanitizeCookieValue(v, quoted)`: drop invalid bytes, and wrap what is left
in double quotes when it holds a space or a comma or the value was quoted when read (an
empty quoted value is written as two double quotes). -/
def sanitizeCookieValue (v : GoString) (quoted : Bool) : GoString :=
  let v1 := sanitizeOrWarn validCookieValueByte v
  if v1.any (fun c => c == ' ' || c == ',') || quoted then ['"'] ++ v1 ++ ['"']
  else v1

/-- The text `name=value` that `AddCookie` writes for a cookie. -/
def cookiePair (c : Cookie) : GoString :=
  sanitizeCookieName c.Name ++ ['='] ++ sanitizeCookieValue c.Value c.Quoted

/-- Go `(*Request).AddCookie(c)`: the pair is joined with `"; "` to the first `Cookie`
header value when that is not empty, and the result replaces the value list of the
`Cookie` header. -/
def AddCookie (r : Request) (c : Cookie) : Request :=
  let s := cookiePair c
  let old := Header.Get r.Header "Cookie".toList
  if old ≠ [] then { r with Header := Header.Set r.Header "Cookie".toList (old ++ "; ".toList ++ s) }
  else { r with Header := Header.Set r.Header "Cookie".toList s }

/-- Go `http.isToken` (`isCookieNameValid` in older releases): a non-empty string of
token characters. -/
def isToken (v : GoString) : Bool := v ≠ [] && v.all textproto.validHeaderFieldByte

/-- Go `http.parseCookieValue(raw, allowDoubleQuote)`: the value with surrounding double
quotes stripped, whether it was quoted, and whether every byte is valid. -/
def parseCookieValue (raw : GoString) (allowDoubleQuote : Bool) : GoString × Bool × Bool :=
  let quoted := allowDoubleQuote && decide (raw.length > 1) && raw.head? == some '"' &&
    raw.getLast? == some '"'
  let raw1 := if quoted then (raw.drop 1).dropLast else raw
  if raw1.all validCookieValueByte then (raw1, quoted, true) else ([], quoted, false)

/-- Go `http.ParseSetCookie(line)` up to the name and value of the cookie (attributes
never make the parse fail and stay in `Raw`): `none` for a blank line, a line whose first
part has no `=`, an invalid name or an invalid value. -/
def ParseSetCookie (line : GoString) : Option Cookie :=
  let parts := strings.Split (textproto.TrimString line) [';']
  if parts.length = 1 ∧ parts.headD [] = [] then none
  else
    let part0 := textproto.TrimString (parts.headD [])
    let cut := strings.Cut part0 ['=']
    if !cut.2.2 then none
    else
      let name := textproto.TrimString cut.1
      if !isToken name then none
      else
        let pv := parseCookieValue cut.2.1 true
        if !pv.2.2 then none
        else some { Name := name, Value := pv.1, Quoted := pv.2.1, Raw := line }

/-- Go `http.defaultCookieMaxNum`: the number of cookies above which none is parsed. -/
def defaultCookieMaxNum : Nat := 3000

/-- Go `http.cookieNumWithinMax(cookieNum)` with the `GODEBUG` setting `httpcookiemaxnum`
left unset. -/
def cookieNumWithinMax (cookieNum : Nat) : Bool := decide (cookieNum ≤ defaultCookieMaxNum)

/-- Go `http.readSetCookies(h)`, what `(*Response).Cookies()` returns: no cookie when the
header has no `Set-Cookie` line or more lines than `cookieNumWithinMax` admits; else the
cookies of the `Set-Cookie` lines in header order, lines that do not parse skipped.  The
line parser is a parameter. -/
def readSetCookies (parse : GoString → Option Cookie) (h : Header) : List Cookie :=
  let lines := (h "Set-Cookie".toList).getD []
  let cookieCount := lines.length
  if cookieCount = 0 then []
  else if !cookieNumWithinMax cookieCount then []
  else lines.filterMap parse

/-- Go `(*Response).Cookies()`. -/
def Cookies (parse : GoString → Option Cookie) (r : Response) : List Cookie :=
  readSetCookies parse r.Header

end http

/-! ## Package `net/http/httputil`: the director of `NewSingleHostReverseProxy` -/

namespace httputil

/-- Go `httputil.singleJoiningSlash`. -/
def singleJoiningSlash (a b : GoString) : GoString :=
  let aslash := strings.HasSuffix a ['/']
  let bslash := strings.HasPrefix b ['/']
  if aslash && bslash then a ++ b.drop 1
  else if !aslash && !bslash then a ++ ['/'] ++ b
  else a ++ b

/-- Go `httputil.joinURLPath(a, b)`: the `Path` and `RawPath` of the joined URL. -/
def joinURLPath (a b : URL) : GoString × GoString :=
  if a.RawPath = [] ∧ b.RawPath = [] then (singleJoiningSlash a.Path b.Path, [])
  else
    let apath := a.EscapedPath
    let bpath := b.EscapedPath
    let aslash := strings.HasSuffix apath ['/']
    let bslash := strings.HasPrefix bpath ['/']
    if aslash && bslash then (a.Path ++ b.Path.drop 1, apath ++ bpath.drop 1)
    else if !aslash && !bslash then (a.Path ++ ['/'] ++ b.Path, apath ++ ['/'] ++ bpath)
    else (a.Path ++ b.Path, apath ++ bpath)

/-- Go `httputil.rewriteRequestURL(req, target)`, the director that
`NewSingleHostReverseProxy(target)` installs: route the request to `target`, joining the
target path in front of the request path and the target query in front of the request
query. -/
def rewriteRequestURL (req : Request) (target : URL) : Request :=
  let targetQuery := target.RawQuery
  let joined := joinURLPath target req.URL
  let rawQuery :=
    if targetQuery = [] ∨ req.URL.RawQuery = [] then targetQuery ++ req.URL.RawQuery
    else targetQuery ++ ['&'] ++ req.URL.RawQuery
  { req with URL := { req.URL with
      Scheme := target.Scheme, Host := target.Host,
      Path := joined.1, RawPath := joined.2, RawQuery := rawQuery } }

end httputil

/-! ## `main.go`: start-up (lines 34-59 and 103-109) -/

/-- What `main` does that is visible from outside, in program order. -/
inductive Effect
  | Println (msg : GoString)
  | PrintfErr (format err : GoString)
  | PrintfURL (format : GoString) (u : URL)
  | PrintfStr (format arg : GoString)
  | Exit (code : Nat)
  | NewSingleHostReverseProxy (target : URL)
  | HandleFunc (pattern : GoString)
  | ListenAndServe (addr : GoString)
deriving DecidableEq

/-- The effects that create the proxy or bind the listener. -/
def Effect.buildsProxy : Effect → Bool
  | .NewSingleHostReverseProxy _ => true
  | .HandleFunc _ => true
  | .ListenAndServe _ => true
  | _ => false

/-- The function `main` after `flag.Parse()`: `target` and `port` are the flag values,
`Parse` is `url.Parse`, and `listenErr` is the error `http.ListenAndServe` returns
(`none` while it is serving).  `os.Exit` ends the trace. -/
def main (Parse : GoString → Except GoString URL) (target : GoString) (port : Int)
    (listenErr : Option GoString) : List Effect :=
  if target = [] then
    [.Println "No target URL provided. Please provide a target URL.".toList, .Exit 1]
  else
    match Parse target with
    | .error err => [.PrintfErr "Error parsing target URL: %s\n".toList err, .Exit 1]
    | .ok proxyUrl =>
      if proxyUrl.Scheme = [] ∨ proxyUrl.Host = [] then
        [.Println
          "Invalid target URL format. Please ensure it is in the format 'https://<host>'".toList,
         .Exit 1]
      else
        let addr := ':' :: (toString port).toList
        [.PrintfURL "Proxy URL: %s\n".toList proxyUrl,
         .NewSingleHostReverseProxy proxyUrl,
         .HandleFunc ['/'],
         .PrintfStr "Starting server on %s\n".toList addr,
         .PrintfStr "Target URL: %s\n".toList target,
         .ListenAndServe addr] ++
        (match listenErr with
         | some e => [.PrintfErr "Error starting server: %s\n".toList e, .Exit 1]
         | none => [])

/-- The map `headers` after `flag.Parse()` has called `Set` for each `-header` value in
turn, all of them accepted. -/
def setAll (specs : List GoString) : headerFlags :=
  specs.foldl (fun h spec => (h.Set spec).1) []

/-! ## `main.go`: the request handler (lines 61-101) -/

/-- The name the response hook looks for (line 91). -/
def cfName : GoString := "CF_Authorization".toList

/-- The loop `for key, value := range headers { r.Header.Add(key, value) }` (lines 64-66),
run in the iteration order `order`. -/
def addHeaders (order : List (GoString × GoString)) (hdr : Header) : Header :=
  order.foldl (fun h kv => Header.Add h kv.1 kv.2) hdr

/-- Lines 68-71: attach the held cookie, if there is one. -/
def attachCookie (cfAuthorizationCookie : Option Cookie) (r : Request) : Request :=
  match cfAuthorizationCookie with
  | some c => http.AddCookie r c
  | none => r

/-- The rewrite the handler performs on the inbound request before it calls
`reverseProxy.ServeHTTP` (lines 64-75): header injection in the iteration order `order`,
cookie attach, and the overwrite of `URL.Host`, `URL.Scheme` and `Host`. -/
def handler (order : List (GoString × GoString)) (proxyUrl : URL)
    (cfAuthorizationCookie : Option Cookie) (r : Request) : Request :=
  let r1 : Request := { r with Header := addHeaders order r.Header }
  let r2 : Request := attachCookie cfAuthorizationCookie r1
  { r2 with
    URL := { r2.URL with Host := proxyUrl.Host, Scheme := proxyUrl.Scheme },
    Host := proxyUrl.Host }

/-- The request `reverseProxy.ServeHTTP` forwards (line 100) as far as its URL, Host,
method and body go: the rewritten request after the director of
`NewSingleHostReverseProxy(proxyUrl)` has run on it.  What `ServeHTTP` does to the header
on the way out (hop-by-hop headers, `X-Forwarded-For`, `User-Agent`) is not modelled: the
`Header` field is the one the handler produced. -/
def forwarded (order : List (GoString × GoString)) (proxyUrl : URL)
    (cfAuthorizationCookie : Option Cookie) (r : Request) : Request :=
  httputil.rewriteRequestURL (handler order proxyUrl cfAuthorizationCookie r) proxyUrl

/-- The loop of lines 90-95: the first cookie named `CF_Authorization` is stored and the
loop left; `held` is returned when there is none. -/
def captureLoop (held : Option Cookie) : List Cookie → Option Cookie
  | [] => held
  | cookie :: rest => if cookie.Name = cfName then some cookie else captureLoop held rest

/-- What the response hook leaves behind: the package variable, the response it was
handed, and the error it returns. -/
structure HookResult where
  cfAuthorizationCookie : Option Cookie
  response : Response
  err : Option GoString

/-- The hook `reverseProxy.ModifyResponse` (lines 87-98).  It only reads the response. -/
def ModifyResponse (parse : GoString → Option Cookie) (cfAuthorizationCookie : Option Cookie)
    (response : Response) : HookResult :=
  { cfAuthorizationCookie :=
      match cfAuthorizationCookie with
      | none => captureLoop none (http.Cookies parse response)
      | some c => some c
    response := response
    err := none }

/-! ## The proxy as a transition system -/

/-- One step of the running proxy: a request is handled (with the iteration order its
`range headers` loop takes), or the hook inspects an upstream response. -/
inductive Event
  | request (order : List (GoString × GoString)) (r : Request)
  | response (resp : Response)

/-- The state of the running proxy: the package variable `cfAuthorizationCookie` and the
rewritten requests handed to `reverseProxy.ServeHTTP` so far, oldest first. -/
structure ProxyState where
  cfAuthorizationCookie : Option Cookie
  served : List Request

/-- The state at start-up: no credential, nothing handled. -/
def ProxyState.init : ProxyState := { cfAuthorizationCookie := none, served := [] }

/-- One step. -/
def step (parse : GoString → Option Cookie) (proxyUrl : URL) (s : ProxyState) :
    Event → ProxyState
  | .request order r =>
    { s with served := s.served ++ [handler order proxyUrl s.cfAuthorizationCookie r] }
  | .response resp =>
    { s with cfAuthorizationCookie := (ModifyResponse parse s.cfAuthorizationCookie resp).cfAuthorizationCookie }

/-- A run: the steps taken in order. -/
def run (parse : GoString → Option Cookie) (proxyUrl : URL) (s : ProxyState)
    (events : List Event) : ProxyState :=
  events.foldl (step parse proxyUrl) s

/-- The rewritten requests the handler produces for the request events of a list when the
credential is `cred` throughout. -/
def handledWith (proxyUrl : URL) (cred : Option Cookie) : List Event → List Request
  | [] => []
  | .request order r :: rest => handler order proxyUrl cred r :: handledWith proxyUrl cred rest
  | .response _ :: rest => handledWith proxyUrl cred rest

/-! ## The proxy with concurrent handlers -/

/-- One step of the proxy when handlers run concurrently.  A call of the response hook
takes two steps, as main.go has no lock or atomic operation between them: `test` is the
evaluation of `cfAuthorizationCookie == nil` (line 89), and `assign` is the loop of lines
90-95 run by a call that found `nil`, with the assignment of line 92.  `call` names the
hook call.  `handle` is the handler rewriting a request (its reads of the variable at
lines 69-70 are taken as one step: no step ever sets the variable back to `nil`). -/
inductive Action
  | test (call : Nat) (resp : Response)
  | assign (call : Nat)
  | handle (order : List (GoString × GoString)) (r : Request)

/-- The state with concurrent handlers: the package variable, the hook calls that have
passed the test of line 89 and not yet run their loop (with the response each holds), the
cookies assigned at line 92 so far (oldest first), and the rewritten requests handed to
`reverseProxy.ServeHTTP` so far. -/
structure RaceState where
  cfAuthorizationCookie : Option Cookie
  passed : List (Nat × Response)
  assigned : List Cookie
  served : List Request

/-- The state at start-up. -/
def RaceState.init : RaceState :=
  { cfAuthorizationCookie := none, passed := [], assigned := [], served := [] }

/-- One step with concurrent handlers.  An `assign` of a call that is not past the test
does nothing. -/
def raceStep (parse : GoString → Option Cookie) (proxyUrl : URL) (s : RaceState) :
    Action → RaceState
  | .test call resp =>
    match s.cfAuthorizationCookie with
    | none => { s with passed := s.passed ++ [(call, resp)] }
    | some _ => s
  | .assign call =>
    match s.passed.lookup call with
    | none => s
    | some resp =>
      { s with
        cfAuthorizationCookie := captureLoop s.cfAuthorizationCookie (http.Cookies parse resp)
        passed := s.passed.filter (fun p => p.1 ≠ call)
        assigned := s.assigned ++ (captureLoop none (http.Cookies parse resp)).toList }
  | .handle order r =>
    { s with served := s.served ++ [handler order proxyUrl s.cfAuthorizationCookie r] }

/-- A schedule: the steps taken in order. -/
def raceRun (parse : GoString → Option Cookie) (proxyUrl : URL) (s : RaceState)
    (schedule : List Action) : RaceState :=
  schedule.foldl (raceStep parse proxyUrl) s

/-- The serialised schedule of a list of events: each hook call makes its test and its
assignment with no other step in between.  Calls are numbered from `n`. -/
def serialise : Nat → List Event → List Action
  | _, [] => []
  | n, .request order r :: rest => .handle order r :: serialise (n + 1) rest
  | n, .response resp :: rest => .test n resp :: .assign n :: serialise (n + 1) rest

/-! ## Quantities used in the statements -/

/-- The values the configured entries add under the header key `k`, in iteration order:
the values of the entries whose name has canonical form `k`. -/
def configuredValues (order : List (GoString × GoString)) (k : GoString) : List GoString :=
  (order.filter (fun kv => textproto.CanonicalMIMEHeaderKey kv.1 = k)).map Prod.snd

/-- The number of steps of a run at which the package variable `cfAuthorizationCookie`
changes. -/
def writes (parse : GoString → Option Cookie) (proxyUrl : URL) :
    ProxyState → List Event → Nat
  | _, [] => 0
  | s, e :: rest =>
    (if (step parse proxyUrl s e).cfAuthorizationCookie = s.cfAuthorizationCookie then 0 else 1) +
      writes parse proxyUrl (step parse proxyUrl s e) rest

/-- The text put in front of the pair when a cookie is attached: the first `Cookie` value
already on the request and `"; "`, or nothing. -/
def cookieLead (old : GoString) : GoString :=
  if old ≠ [] then old ++ "; ".toList else []

/-! ## Example values -/

/-- A URL with every component empty. -/
def url.URL.zero : URL :=
  { Scheme := [], Opaque := [], User := none, Host := [], Path := [], RawPath := [],
    OmitHost := false, ForceQuery := false, RawQuery := [], Fragment := [], RawFragment := [] }

/-- The URL `http://localhost:9000`. -/
def localhost9000 : URL :=
  { url.URL.zero with Scheme := "http".toList, Host := "localhost:9000".toList }

/-- The URL `https://host/base`. -/
def hostBase : URL :=
  { url.URL.zero with Scheme := "https".toList, Host := "host".toList, Path := "/base".toList }

/-- What Go `url.Parse` returns on the targets used in the examples; any other string is
outside the table. -/
def parseTable (target : GoString) : Except GoString URL :=
  if target = "not-a-url".toList then .ok { url.URL.zero with Path := "not-a-url".toList }
  else if target = "http://localhost:9000".toList then .ok localhost9000
  else if target = "https://host/base".toList then .ok hostBase
  else if target = ":".toList then .error "parse \":\": missing protocol scheme".toList
  else .error "not in the table".toList

/-- The request `GET /widgets/7` sent to the proxy at `proxy.local:8080`, with one
`X-Env: client` header. -/
def getWidgets : Request :=
  { Method := "GET".toList
    URL := { url.URL.zero with Path := "/widgets/7".toList }
    Host := "proxy.local:8080".toList
    Header := Header.Add Header.empty "X-Env".toList "client".toList
    Body := [] }

/-- An upstream response that sets two cookies named `CF_Authorization` after a line
that does not parse and a cookie of another name. -/
def loginResponse : Response :=
  { StatusCode := 200
    Header := fun k =>
      if k = "Set-Cookie".toList then
        some ["garbage".toList, "session=s1; Path=/".toList,
              "CF_Authorization=abc123; Path=/; HttpOnly".toList,
              "CF_Authorization=zzz; Path=/".toList]
      else none
    Body := "ok".toList }

/-- The cookie `CF_Authorization=abc123` as read from `loginResponse`. -/
def abc123 : Cookie :=
  { Name := cfName, Value := "abc123".toList, Quoted := false,
    Raw := "CF_Authorization=abc123; Path=/; HttpOnly".toList }

/-- The cookie `session=s1` of `loginResponse`. -/
def sessionCookie : Cookie :=
  { Name := "session".toList, Value := "s1".toList, Quoted := false,
    Raw := "session=s1; Path=/".toList }

/-- The second `CF_Authorization` cookie of `loginResponse`. -/
def zzz : Cookie :=
  { Name := cfName, Value := "zzz".toList, Quoted := false,
    Raw := "CF_Authorization=zzz; Path=/".toList }

/-- A later upstream response that sets `CF_Authorization` to another value. -/
def rotatedResponse : Response :=
  { StatusCode := 200
    Header := fun k =>
      if k = "Set-Cookie".toList then some ["CF_Authorization=rotated".toList] else none
    Body := [] }

/-- An upstream response whose `Set-Cookie` lines are a line that does not parse and a
cookie named `session`. -/
def otherCookies : Response :=
  { StatusCode := 302
    Header := fun k =>
      if k = "Set-Cookie".toList then some ["=;".toList, "session=s1; Path=/".toList]
      else none
    Body := [] }

/-- The cookie `CF_Authorization=rotated` of `rotatedResponse`. -/
def rotated : Cookie :=
  { Name := cfName, Value := "rotated".toList, Quoted := false,
    Raw := "CF_Authorization=rotated".toList }

/-- The line `CF_Authorization=abc123` followed by 3000 lines `a=b`. -/
def floodLines : List GoString :=
  "CF_Authorization=abc123".toList :: List.replicate 3000 "a=b".toList

/-- An upstream response whose `Set-Cookie` lines are the 3001 lines of `floodLines`. -/
def floodResponse : Response :=
  { StatusCode := 200
    Header := fun k => if k = "Set-Cookie".toList then some floodLines else none
    Body := [] }

/-- The URL `https://host/base/?v=1`. -/
def hostBaseSlash : URL :=
  { url.URL.zero with
    Scheme := "https".toList, Host := "host".toList, Path := "/base/".toList,
    RawQuery := "v=1".toList }

/-- The request `GET /widgets/7?a=b`. -/
def getWidgetsQuery : Request :=
  { getWidgets with URL := { getWidgets.URL with RawQuery := "a=b".toList } }

/-- The header map built from `-header "x-env: a" -header "X-Env: b"`. -/
def caseClash : headerFlags := setAll ["x-env: a".toList, "X-Env: b".toList]

/-- The header map built from `-header "X-Env: staging" -header "Accept: */*"`. -/
def twoHeaders : headerFlags := setAll ["X-Env: staging".toList, "Accept: */*".toList]

/-! ## Theorems -/

namespace strings

theorem Index_singleton_none (c : Char) (s : GoString) (h : c ∉ s) : Index s [c] = none := by
  induction s with
  | nil => simp [Index]
  | cons x t ih =>
    simp only [List.mem_cons, not_or] at h
    have hx : ¬ x = c := fun e => h.1 e.symm
    simp [Index, List.isPrefixOf, hx, h.1, ih h.2]

theorem Index_singleton_first (c : Char) (pre post : GoString) (h : c ∉ pre) :
    Index (pre ++ c :: post) [c] = some pre.length := by
  induction pre with
  | nil => simp [Index, List.isPrefixOf]
  | cons x t ih =>
    simp only [List.mem_cons, not_or] at h
    have hx : ¬ x = c := fun e => h.1 e.symm
    simp [Index, List.isPrefixOf, hx, h.1, ih h.2]

theorem SplitN_colon_none (s : GoString) (h : ':' ∉ s) : SplitN s [':'] 2 = [s] := by
  unfold SplitN genSplit
  cases s with
  | nil => simp [genSplitLoop]
  | cons x t =>
    have h2 : ((2 : Int) - 1).toNat = 1 := by decide
    have h3 : ((↑(t.length + 1) : Int) + 1 - 1).toNat = t.length + 1 := by omega
    by_cases hl : (2 : Int) > (↑(x :: t).length : Int) + 1
    · simp only [List.length_cons] at hl
      simp [hl, h3, genSplitLoop, Index_singleton_none _ _ h]
    · simp only [List.length_cons] at hl
      simp [hl, h2, genSplitLoop, Index_singleton_none _ _ h]

theorem SplitN_colon_first (pre post : GoString) (h : ':' ∉ pre) :
    SplitN (pre ++ ':' :: post) [':'] 2 = [pre, post] := by
  unfold SplitN genSplit
  have hl : ¬ ((2 : Int) > (↑(pre ++ ':' :: post).length : Int) + 1) := by
    simp only [List.length_append, List.length_cons]; omega
  have h2 : ((2 : Int) - 1).toNat = 1 := by decide
  simp [hl, h2, genSplitLoop, Index_singleton_first _ _ _ h]

theorem exists_first_split (c : Char) (s : GoString) (h : c ∈ s) :
    ∃ pre post, s = pre ++ c :: post ∧ c ∉ pre := by
  induction s with
  | nil => simp at h
  | cons x t ih =>
    by_cases hx : x = c
    · exact ⟨[], t, by simp [hx], by simp⟩
    · have ht : c ∈ t := by
        rcases List.mem_cons.mp h with e | e
        · exact absurd e.symm hx
        · exact e
      obtain ⟨pre, post, e, hp⟩ := ih ht
      refine ⟨x :: pre, post, by simp [e], ?_⟩
      simp only [List.mem_cons, not_or]
      exact ⟨fun e => hx e.symm, hp⟩

end strings

/-! ### The header flag -/

theorem headerFlags.index_assign (h : headerFlags) (k v x : GoString) :
    (h.assign k v).index x = if x = k then some v else h.index x := by
  induction h with
  | nil =>
    by_cases hx : x = k
    · simp [headerFlags.assign, headerFlags.index, hx]
    · have hx2 : ¬ k = x := fun e => hx e.symm
      simp [headerFlags.assign, headerFlags.index, hx, hx2]
  | cons e t ih =>
    obtain ⟨k1, v1⟩ := e
    by_cases hk : k1 = k
    · by_cases hx : x = k
      · simp [headerFlags.assign, headerFlags.index, hk, hx]
      · have hx2 : ¬ k = x := fun e => hx e.symm
        simp [headerFlags.assign, headerFlags.index, hk, hx, hx2]
    · by_cases hx : k1 = x
      · have hxk : ¬ x = k := fun e => hk (hx.trans e)
        simp [headerFlags.assign, headerFlags.index, hk, hx, hxk]
      · simp [headerFlags.assign, headerFlags.index, hk, hx, ih]

theorem headerFlags.Set_of_split (h : headerFlags) (pre post : GoString) (hpre : ':' ∉ pre) :
    h.Set (pre ++ ':' :: post) =
      (h.assign (strings.TrimSpace pre) (strings.TrimSpace post), none) := by
  simp [headerFlags.Set, strings.SplitN_colon_first pre post hpre]

theorem headerFlags.Set_of_no_colon (h : headerFlags) (s : GoString) (hs : ':' ∉ s) :
    h.Set s = (h, some "invalid header format (expected 'Key: Value')".toList) := by
  simp [headerFlags.Set, strings.SplitN_colon_none s hs]

/-- C1: for every header spec `s` that contains a colon and every map `h`, `Set` returns no
error, and the map after the call reads, at every key, as `h` with the trimmed text
before the first colon of `s` bound to the trimmed text after that colon (later colons
included): that key is overwritten and every other key is unchanged. -/
theorem headerFlags_Set_stores (h : headerFlags) (s : GoString) (hs : ':' ∈ s) :
    (h.Set s).2 = none ∧
    ∃ pre post, s = pre ++ ':' :: post ∧ ':' ∉ pre ∧
      ∀ k, (h.Set s).1.index k =
        if k = strings.TrimSpace pre then some (strings.TrimSpace post) else h.index k := by
  obtain ⟨pre, post, e, hpre⟩ := strings.exists_first_split ':' s hs
  subst e
  rw [headerFlags.Set_of_split h pre post hpre]
  exact ⟨rfl, pre, post, rfl, hpre, fun k => headerFlags.index_assign h _ _ k⟩

/-- C1 at the spec `"  Authorization :  Bearer a:b "` on a map that already binds
`Authorization`: the call succeeds and the entry reads `Bearer a:b` afterwards. -/
theorem headerFlags_Set_stores_witness :
    ':' ∈ "  Authorization :  Bearer a:b ".toList ∧
    (headerFlags.Set [("Authorization".toList, "old".toList), ("X-Env".toList, "staging".toList)]
        "  Authorization :  Bearer a:b ".toList).2 = none ∧
    (headerFlags.Set [("Authorization".toList, "old".toList), ("X-Env".toList, "staging".toList)]
        "  Authorization :  Bearer a:b ".toList).1 =
      [("Authorization".toList, "Bearer a:b".toList), ("X-Env".toList, "staging".toList)] :=
  ⟨by decide,
   (headerFlags_Set_stores
      [("Authorization".toList, "old".toList), ("X-Env".toList, "staging".toList)]
      "  Authorization :  Bearer a:b ".toList (by decide)).1,
   by decide⟩

/-- C2: `Set` returns an error exactly when the spec holds no colon, and a call that
returns an error leaves the map as it was. -/
theorem headerFlags_Set_error_iff (h : headerFlags) (s : GoString) :
    ((h.Set s).2 ≠ none ↔ ':' ∉ s) ∧ ((h.Set s).2 ≠ none → (h.Set s).1 = h) := by
  by_cases hs : ':' ∈ s
  · obtain ⟨pre, post, e, hpre⟩ := strings.exists_first_split ':' s hs
    have h1 : (h.Set s).2 = none := by rw [e, headerFlags.Set_of_split h pre post hpre]
    exact ⟨⟨fun hne => absurd h1 hne, fun hn => absurd hs hn⟩, fun hne => absurd h1 hne⟩
  · rw [headerFlags.Set_of_no_colon h s hs]
    exact ⟨⟨fun _ => hs, fun _ => by simp⟩, fun _ => rfl⟩

/-- C2 at the spec `"X-Env staging"`, which has no colon: an error is returned and the
map is unchanged. -/
theorem headerFlags_Set_error_iff_witness :
    (headerFlags.Set [("X-Env".toList, "staging".toList)] "X-Env staging".toList).2 ≠ none ∧
    (headerFlags.Set [("X-Env".toList, "staging".toList)] "X-Env staging".toList).1 =
      [("X-Env".toList, "staging".toList)] :=
  ⟨(headerFlags_Set_error_iff [("X-Env".toList, "staging".toList)]
      "X-Env staging".toList).1.mpr (by decide),
   (headerFlags_Set_error_iff [("X-Env".toList, "staging".toList)]
      "X-Env staging".toList).2
     ((headerFlags_Set_error_iff [("X-Env".toList, "staging".toList)]
      "X-Env staging".toList).1.mpr (by decide))⟩

/-! ### Start-up -/

/-- C3: `main` reaches the construction of the proxy exactly when the target is not
empty, `url.Parse` accepts it, and the parsed URL has a non-empty scheme and a non-empty
host; then the proxy is built for that URL.  In every other case the trace is one message
followed by `os.Exit(1)`, with no proxy, handler or listener created; this is so in
particular whenever the parsed URL has an empty scheme or an empty host, as for
`not-a-url`. -/
theorem main_validates_target (Parse : GoString → Except GoString URL) (target : GoString)
    (port : Int) (listenErr : Option GoString) :
    ((∃ e ∈ main Parse target port listenErr, e.buildsProxy = true) ↔
      (target ≠ [] ∧ ∃ u, Parse target = .ok u ∧ u.Scheme ≠ [] ∧ u.Host ≠ [])) ∧
    (∀ u, target ≠ [] → Parse target = .ok u → u.Scheme ≠ [] → u.Host ≠ [] →
      Effect.NewSingleHostReverseProxy u ∈ main Parse target port listenErr) ∧
    (¬ (target ≠ [] ∧ ∃ u, Parse target = .ok u ∧ u.Scheme ≠ [] ∧ u.Host ≠ []) →
      ∃ msg, main Parse target port listenErr = [msg, .Exit 1] ∧ msg.buildsProxy = false) ∧
    (∀ u, Parse target = .ok u → (u.Scheme = [] ∨ u.Host = []) →
      ∃ msg, main Parse target port listenErr = [msg, .Exit 1] ∧ msg.buildsProxy = false) := by
  have key : (target ≠ [] ∧ ∃ u, Parse target = .ok u ∧ u.Scheme ≠ [] ∧ u.Host ≠ []) ∨
      (∃ msg, main Parse target port listenErr = [msg, .Exit 1] ∧ msg.buildsProxy = false) := by
    by_cases ht : target = []
    · right
      simp only [main, ht, if_true]
      exact ⟨_, rfl, rfl⟩
    · cases hp : Parse target with
      | error err =>
        right
        simp only [main, ht, hp, if_false]
        exact ⟨_, rfl, rfl⟩
      | ok u =>
        by_cases hu : u.Scheme = [] ∨ u.Host = []
        · right
          simp only [main, ht, hp, hu, if_true, if_false]
          exact ⟨_, rfl, rfl⟩
        · left
          exact ⟨ht, u, rfl, fun e => hu (Or.inl e), fun e => hu (Or.inr e)⟩
  have acc : ∀ u, target ≠ [] → Parse target = .ok u → u.Scheme ≠ [] → u.Host ≠ [] →
      Effect.NewSingleHostReverseProxy u ∈ main Parse target port listenErr := by
    intro u ht hp hs hh
    have hu : ¬ (u.Scheme = [] ∨ u.Host = []) := fun h => h.elim hs hh
    simp only [main, ht, hp, hu, if_false]
    simp
  have rej : (∃ msg, main Parse target port listenErr = [msg, .Exit 1] ∧ msg.buildsProxy = false) →
      ¬ ∃ e ∈ main Parse target port listenErr, e.buildsProxy = true := by
    rintro ⟨msg, hm, hb⟩ ⟨e, he, hbe⟩
    rw [hm] at he
    simp only [List.mem_cons, List.mem_singleton, List.not_mem_nil, or_false] at he
    rcases he with rfl | rfl
    · rw [hb] at hbe; exact Bool.noConfusion hbe
    · exact Bool.noConfusion hbe
  refine ⟨⟨fun hex => ?_, fun hc => ?_⟩, acc, fun hn => ?_, fun u hp hu => ?_⟩
  · rcases key with hc | hr
    · exact hc
    · exact absurd hex (rej hr)
  · obtain ⟨ht, u, hp, hs, hh⟩ := hc
    exact ⟨_, acc u ht hp hs hh, rfl⟩
  · rcases key with hc | hr
    · exact absurd hc hn
    · exact hr
  · rcases key with hc | hr
    · obtain ⟨_, u2, hp2, hs, hh⟩ := hc
      rw [hp] at hp2
      cases hp2
      exact hu.elim (fun e => absurd e hs) (fun e => absurd e hh)
    · exact hr

/-- C3 on two targets: `not-a-url` parses with an empty scheme and host and is rejected
with exit code 1 before anything is built; `http://localhost:9000` is accepted and the
proxy is built for it. -/
theorem main_validates_target_witness :
    (∃ msg, main parseTable "not-a-url".toList 8080 none = [msg, .Exit 1] ∧
      msg.buildsProxy = false) ∧
    Effect.NewSingleHostReverseProxy localhost9000 ∈
      main parseTable "http://localhost:9000".toList 8080 none :=
  ⟨(main_validates_target parseTable "not-a-url".toList 8080 none).2.2.2
      { url.URL.zero with Path := "not-a-url".toList } rfl (Or.inl rfl),
   (main_validates_target parseTable "http://localhost:9000".toList 8080 none).2.1
      localhost9000 (by decide) rfl (by decide) (by decide)⟩

/-! ### Header injection -/

theorem addHeaders_cons (kv : GoString × GoString) (t : List (GoString × GoString))
    (hdr : Header) : addHeaders (kv :: t) hdr = addHeaders t (Header.Add hdr kv.1 kv.2) := rfl

theorem configuredValues_cons (kv : GoString × GoString) (t : List (GoString × GoString))
    (k : GoString) :
    configuredValues (kv :: t) k =
      if textproto.CanonicalMIMEHeaderKey kv.1 = k then kv.2 :: configuredValues t k
      else configuredValues t k := by
  by_cases h : textproto.CanonicalMIMEHeaderKey kv.1 = k <;>
    simp [configuredValues, List.filter_cons, h]

/-- The value list under each key after the injection loop. -/
theorem addHeaders_apply (order : List (GoString × GoString)) (hdr : Header) (k : GoString) :
    addHeaders order hdr k =
      if configuredValues order k = [] then hdr k
      else some ((hdr k).getD [] ++ configuredValues order k) := by
  induction order generalizing hdr with
  | nil => simp [addHeaders, configuredValues]
  | cons kv t ih =>
    rw [addHeaders_cons, ih, configuredValues_cons]
    by_cases hk : textproto.CanonicalMIMEHeaderKey kv.1 = k
    · have hx : (Header.Add hdr kv.1 kv.2) k = some ((hdr k).getD [] ++ [kv.2]) := by
        simp [Header.Add, hk]
      by_cases ht : configuredValues t k = []
      · simp [hk, ht, hx]
      · simp [hk, ht, hx]
    · have hk2 : ¬ k = textproto.CanonicalMIMEHeaderKey kv.1 := fun e => hk e.symm
      have hx : (Header.Add hdr kv.1 kv.2) k = hdr k := by
        simp [Header.Add, hk2]
      simp [hk, hx]

theorem Header.Values_addHeaders (order : List (GoString × GoString)) (hdr : Header)
    (name : GoString) :
    Header.Values (addHeaders order hdr) name =
      Header.Values hdr name ++ configuredValues order (textproto.CanonicalMIMEHeaderKey name) := by
  unfold Header.Values
  rw [addHeaders_apply]
  by_cases h : configuredValues order (textproto.CanonicalMIMEHeaderKey name) = []
  · simp [h]
  · simp [h]

theorem mem_configuredValues (order : List (GoString × GoString)) (name value : GoString)
    (h : (name, value) ∈ order) :
    value ∈ configuredValues order (textproto.CanonicalMIMEHeaderKey name) := by
  unfold configuredValues
  exact List.mem_map.mpr ⟨(name, value), List.mem_filter.mpr ⟨h, by simp⟩, rfl⟩

theorem configuredValues_eq_nil (order : List (GoString × GoString)) (k : GoString)
    (h : ∀ kv ∈ order, textproto.CanonicalMIMEHeaderKey kv.1 ≠ k) :
    configuredValues order k = [] := by
  unfold configuredValues
  rw [List.map_eq_nil_iff, List.filter_eq_nil_iff]
  intro kv hkv
  simpa using h kv hkv

theorem configuredValues_single (order : List (GoString × GoString)) (name value : GoString)
    (hmem : (name, value) ∈ order) (hkeys : (order.map Prod.fst).Nodup)
    (hcanon : ∀ kv ∈ order,
      textproto.CanonicalMIMEHeaderKey kv.1 = textproto.CanonicalMIMEHeaderKey name →
        kv.1 = name) :
    configuredValues order (textproto.CanonicalMIMEHeaderKey name) = [value] := by
  induction order with
  | nil => simp at hmem
  | cons kv t ih =>
    rw [List.map_cons, List.nodup_cons] at hkeys
    have hct : ∀ kv ∈ t,
        textproto.CanonicalMIMEHeaderKey kv.1 = textproto.CanonicalMIMEHeaderKey name →
          kv.1 = name := fun x hx => hcanon x (List.mem_cons_of_mem _ hx)
    rw [configuredValues_cons]
    rcases List.mem_cons.mp hmem with e | e
    · subst e
      have hnil : configuredValues t (textproto.CanonicalMIMEHeaderKey name) = [] := by
        apply configuredValues_eq_nil
        intro x hx hc
        exact hkeys.1 (List.mem_map.mpr ⟨x, hx, hct x hx hc⟩)
      simp [hnil]
    · have hne : ¬ textproto.CanonicalMIMEHeaderKey kv.1 =
          textproto.CanonicalMIMEHeaderKey name := by
        intro hc
        have hk : kv.1 = name := hcanon kv (List.mem_cons_self _ _) hc
        exact hkeys.1 (List.mem_map.mpr ⟨(name, value), e, hk.symm⟩)
      simp [hne, ih e hkeys.2 hct]

/-- C4, amended: after the injection loop, in whatever iteration order, for each
configured `(name, value)` the value list read under that name in canonical form is the
caller's original list followed by the values of every configured name with the same
canonical form, `value` among them; it is the original list followed by `value` alone
when no other configured name has that canonical form; and a header key that is the
canonical form of no configured name keeps its original value list. -/
theorem addHeaders_appends (order : List (GoString × GoString)) (hdr : Header)
    (hkeys : (order.map Prod.fst).Nodup) :
    (∀ name value, (name, value) ∈ order →
      value ∈ configuredValues order (textproto.CanonicalMIMEHeaderKey name) ∧
      Header.Values (addHeaders order hdr) name =
        Header.Values hdr name ++
          configuredValues order (textproto.CanonicalMIMEHeaderKey name)) ∧
    (∀ name value, (name, value) ∈ order →
      (∀ kv ∈ order,
        textproto.CanonicalMIMEHeaderKey kv.1 = textproto.CanonicalMIMEHeaderKey name →
          kv.1 = name) →
      Header.Values (addHeaders order hdr) name = Header.Values hdr name ++ [value]) ∧
    (∀ k, (∀ kv ∈ order, textproto.CanonicalMIMEHeaderKey kv.1 ≠ k) →
      addHeaders order hdr k = hdr k) := by
  refine ⟨fun name value h => ⟨mem_configuredValues order name value h,
      Header.Values_addHeaders order hdr name⟩, fun name value h hc => ?_, fun k hk => ?_⟩
  · rw [Header.Values_addHeaders, configuredValues_single order name value h hkeys hc]
  · rw [addHeaders_apply, configuredValues_eq_nil order k hk]
    simp

/-- C4 as stated fails on the map built from `-header "x-env: a" -header "X-Env: b"` and a
request without headers: in either iteration order the list read under `x-env` holds two
values, not the original (empty) list followed by `a` alone, and the raw key `x-env` is
absent from the header while `X-Env`, which was not configured under that spelling, has
gained values. -/
theorem addHeaders_appends_counterexample :
    caseClash = [("x-env".toList, "a".toList), ("X-Env".toList, "b".toList)] ∧
    (∀ order ∈ [caseClash, caseClash.reverse],
      Header.Values (addHeaders order Header.empty) "x-env".toList ≠
        Header.Values Header.empty "x-env".toList ++ ["a".toList]) ∧
    addHeaders caseClash Header.empty "x-env".toList = none ∧
    addHeaders caseClash Header.empty "X-Env".toList = some ["a".toList, "b".toList] := by
  decide

/-- C4, amended, on the request `GET /widgets/7` carrying `X-Env: client` with the single
configured header `x-env: staging`: the list under `x-env` becomes `client, staging`. -/
theorem addHeaders_appends_witness :
    Header.Values (addHeaders [("x-env".toList, "staging".toList)] getWidgets.Header)
        "x-env".toList = ["client".toList, "staging".toList] :=
  ((addHeaders_appends [("x-env".toList, "staging".toList)] getWidgets.Header
      (by decide)).2.1 "x-env".toList "staging".toList (by decide)
      (by intro kv hkv _; simp only [List.mem_singleton] at hkv; rw [hkv])).trans (by decide)

/-! ### The forwarded request -/

theorem strings.HasPrefix_slash (s : GoString) :
    strings.HasPrefix s ['/'] = true ↔ ∃ t, s = '/' :: t := by
  cases s with
  | nil => simp [strings.HasPrefix, List.isPrefixOf]
  | cons c t =>
    simp only [strings.HasPrefix, List.isPrefixOf, Bool.and_true, beq_iff_eq, List.cons.injEq,
      exists_eq_right']
    exact ⟨fun h => h.symm, fun h => h.symm⟩

theorem url.escape_slash (t : GoString) : url.escape ('/' :: t) = '/' :: url.escape t := by
  have h : url.shouldEscape '/' = false := by decide
  simp [url.escape, h]

theorem url.EscapedPath_congr (u v : URL) (hp : u.Path = v.Path) (hr : u.RawPath = v.RawPath) :
    u.EscapedPath = v.EscapedPath := by
  simp [url.URL.EscapedPath, hp, hr]

/-- Storing the escaped path as `RawPath` does not change the escaped path. -/
theorem url.EscapedPath_idem (u v : URL) (hp : v.Path = u.Path) (hr : v.RawPath = u.EscapedPath) :
    v.EscapedPath = u.EscapedPath := by
  by_cases hc : u.RawPath ≠ [] ∧ url.validEncoded u.RawPath = true ∧
      url.unescape u.RawPath = some (url.bytes u.Path)
  · have he : u.EscapedPath = u.RawPath := by unfold url.URL.EscapedPath; rw [if_pos hc]
    rw [he] at hr
    exact url.EscapedPath_congr v u hp hr
  · have he : u.EscapedPath = if u.Path = ['*'] then ['*'] else url.escape u.Path := by
      unfold url.URL.EscapedPath; rw [if_neg hc]
    by_cases hv : v.RawPath ≠ [] ∧ url.validEncoded v.RawPath = true ∧
        url.unescape v.RawPath = some (url.bytes v.Path)
    · have : v.EscapedPath = v.RawPath := by unfold url.URL.EscapedPath; rw [if_pos hv]
      rw [this, hr]
    · have : v.EscapedPath = if v.Path = ['*'] then ['*'] else url.escape v.Path := by
        unfold url.URL.EscapedPath; rw [if_neg hv]
      rw [this, he, hp]

theorem url.EscapedPath_slash (u : URL) (hp : strings.HasPrefix u.Path ['/'] = true)
    (hr : u.RawPath = [] ∨ strings.HasPrefix u.RawPath ['/'] = true) :
    strings.HasPrefix u.EscapedPath ['/'] = true := by
  obtain ⟨t, ht⟩ := (strings.HasPrefix_slash _).mp hp
  by_cases hc : u.RawPath ≠ [] ∧ url.validEncoded u.RawPath = true ∧
      url.unescape u.RawPath = some (url.bytes u.Path)
  · have he : u.EscapedPath = u.RawPath := by unfold url.URL.EscapedPath; rw [if_pos hc]
    rw [he]
    exact hr.elim (fun e => absurd e hc.1) id
  · have hstar : ¬ u.Path = ['*'] := by
      intro h
      rw [ht] at h
      exact absurd (List.cons.inj h).1 (by decide)
    have he : u.EscapedPath = url.escape u.Path := by
      unfold url.URL.EscapedPath; rw [if_neg hc, if_neg hstar]
    rw [he, ht, url.escape_slash]
    exact (strings.HasPrefix_slash _).mpr ⟨_, rfl⟩

theorem url.EscapedPath_root (a : URL) (ha : a.RawPath = []) (hp : a.Path = [] ∨ a.Path = ['/']) :
    a.EscapedPath = a.Path := by
  rcases hp with h | h
  · simp [url.URL.EscapedPath, ha, h, url.escape]
  · have h2 : url.escape ['/'] = ['/'] := by decide
    simp [url.URL.EscapedPath, ha, h, h2]

/-- Joining a target whose path is empty or `/` leaves a rooted request path as it is. -/
theorem httputil.joinURLPath_root (a b : URL) (ha : a.RawPath = [])
    (hp : a.Path = [] ∨ a.Path = ['/']) (hb : strings.HasPrefix b.Path ['/'] = true)
    (hr : b.RawPath = [] ∨ strings.HasPrefix b.RawPath ['/'] = true) :
    httputil.joinURLPath a b = (b.Path, if b.RawPath = [] then [] else b.EscapedPath) := by
  obtain ⟨t, ht⟩ := (strings.HasPrefix_slash _).mp hb
  by_cases hraw : b.RawPath = []
  · rcases hp with h | h
    · simp [httputil.joinURLPath, httputil.singleJoiningSlash, ha, hraw, h, ht,
        strings.HasPrefix, strings.HasSuffix, List.isPrefixOf, List.isSuffixOf]
    · simp [httputil.joinURLPath, httputil.singleJoiningSlash, ha, hraw, h, ht,
        strings.HasPrefix, strings.HasSuffix, List.isPrefixOf, List.isSuffixOf]
  · have hbs := url.EscapedPath_slash b hb hr
    obtain ⟨e, he⟩ := (strings.HasPrefix_slash _).mp hbs
    have hae := url.EscapedPath_root a ha hp
    rcases hp with h | h
    · simp [httputil.joinURLPath, ha, hraw, hae, h, ht, he,
        strings.HasPrefix, strings.HasSuffix, List.isPrefixOf, List.isSuffixOf]
    · simp [httputil.joinURLPath, ha, hraw, hae, h, ht, he,
        strings.HasPrefix, strings.HasSuffix, List.isPrefixOf, List.isSuffixOf]

theorem attachCookie_frame (cred : Option Cookie) (r : Request) :
    (attachCookie cred r).URL = r.URL ∧ (attachCookie cred r).Method = r.Method ∧
    (attachCookie cred r).Body = r.Body ∧ (attachCookie cred r).Host = r.Host := by
  cases cred with
  | none => exact ⟨rfl, rfl, rfl, rfl⟩
  | some c =>
    simp only [attachCookie, http.AddCookie]
    split <;> exact ⟨rfl, rfl, rfl, rfl⟩

theorem handler_frame (order : List (GoString × GoString)) (proxyUrl : URL)
    (cred : Option Cookie) (r : Request) :
    (handler order proxyUrl cred r).URL =
      { r.URL with Host := proxyUrl.Host, Scheme := proxyUrl.Scheme } ∧
    (handler order proxyUrl cred r).Host = proxyUrl.Host ∧
    (handler order proxyUrl cred r).Method = r.Method ∧
    (handler order proxyUrl cred r).Body = r.Body := by
  have h := attachCookie_frame cred { r with Header := addHeaders order r.Header }
  refine ⟨?_, rfl, h.2.1, h.2.2.1⟩
  show ({ (attachCookie cred { r with Header := addHeaders order r.Header }).URL with
      Host := proxyUrl.Host, Scheme := proxyUrl.Scheme } : URL) = _
  rw [h.1]

/-- The join of a target with a rooted request path, case by case: one slash at the joint,
decided on the decoded target path when neither URL has a raw path and on the escaped
target path otherwise. -/
theorem httputil.joinURLPath_rooted (a b : URL) (hb : strings.HasPrefix b.Path ['/'] = true)
    (hr : b.RawPath = [] ∨ strings.HasPrefix b.RawPath ['/'] = true) :
    httputil.joinURLPath a b =
      if a.RawPath = [] ∧ b.RawPath = [] then
        (if strings.HasSuffix a.Path ['/'] = true then a.Path ++ b.Path.drop 1
         else a.Path ++ b.Path, [])
      else if strings.HasSuffix a.EscapedPath ['/'] = true then
        (a.Path ++ b.Path.drop 1, a.EscapedPath ++ b.EscapedPath.drop 1)
      else (a.Path ++ b.Path, a.EscapedPath ++ b.EscapedPath) := by
  have hbs := url.EscapedPath_slash b hb hr
  by_cases hraw : a.RawPath = [] ∧ b.RawPath = []
  · rw [if_pos hraw]
    by_cases hs : strings.HasSuffix a.Path ['/'] = true
    · simp [httputil.joinURLPath, httputil.singleJoiningSlash, hraw, hs, hb]
    · simp [httputil.joinURLPath, httputil.singleJoiningSlash, hraw, hs, hb]
  · rw [if_neg hraw]
    by_cases hs : strings.HasSuffix a.EscapedPath ['/'] = true
    · simp [httputil.joinURLPath, hraw, hs, hbs]
    · simp [httputil.joinURLPath, hraw, hs, hbs]

theorem forwarded_URL (order : List (GoString × GoString)) (proxyUrl : URL)
    (cred : Option Cookie) (r : Request) :
    (forwarded order proxyUrl cred r).URL =
      { r.URL with
        Scheme := proxyUrl.Scheme, Host := proxyUrl.Host,
        Path := (httputil.joinURLPath proxyUrl
          { r.URL with Host := proxyUrl.Host, Scheme := proxyUrl.Scheme }).1,
        RawPath := (httputil.joinURLPath proxyUrl
          { r.URL with Host := proxyUrl.Host, Scheme := proxyUrl.Scheme }).2,
        RawQuery :=
          if proxyUrl.RawQuery = [] ∨ r.URL.RawQuery = [] then proxyUrl.RawQuery ++ r.URL.RawQuery
          else proxyUrl.RawQuery ++ ['&'] ++ r.URL.RawQuery } := by
  have h := (handler_frame order proxyUrl cred r).1
  simp only [forwarded, httputil.rewriteRequestURL, h]

/-- C5, amended: for an inbound request with a rooted path, the forwarded request has the
upstream scheme, URL host and Host, and the method and body of the inbound request.  Its
query is the upstream query followed by the inbound query, with `&` between them when
both are non-empty, so the inbound query when the upstream has none.  Its path is the
upstream path followed by the inbound path with one slash at the joint: the inbound path
is appended whole when the upstream path does not end in a slash and without its leading
slash when it does, so the path (decoded and escaped) is the inbound one when the upstream
path is empty or `/`.  When either URL has a raw path the slash is tested on the escaped
upstream path and the raw path is joined likewise from the two escaped paths; when
neither has, the raw path stays empty. -/
theorem forwarded_rewrite (order : List (GoString × GoString)) (proxyUrl : URL)
    (cred : Option Cookie) (r : Request)
    (hrooted : strings.HasPrefix r.URL.Path ['/'] = true)
    (hraw : r.URL.RawPath = [] ∨ strings.HasPrefix r.URL.RawPath ['/'] = true) :
    (forwarded order proxyUrl cred r).URL.Scheme = proxyUrl.Scheme ∧
    (forwarded order proxyUrl cred r).URL.Host = proxyUrl.Host ∧
    (forwarded order proxyUrl cred r).Host = proxyUrl.Host ∧
    (forwarded order proxyUrl cred r).Method = r.Method ∧
    (forwarded order proxyUrl cred r).Body = r.Body ∧
    (proxyUrl.RawQuery = [] → (forwarded order proxyUrl cred r).URL.RawQuery = r.URL.RawQuery) ∧
    (proxyUrl.RawPath = [] → (proxyUrl.Path = [] ∨ proxyUrl.Path = ['/']) →
      (forwarded order proxyUrl cred r).URL.Path = r.URL.Path ∧
      (forwarded order proxyUrl cred r).URL.EscapedPath = r.URL.EscapedPath) ∧
    (proxyUrl.RawPath = [] → r.URL.RawPath = [] →
      strings.HasSuffix proxyUrl.Path ['/'] = false →
      (forwarded order proxyUrl cred r).URL.Path = proxyUrl.Path ++ r.URL.Path) ∧
    (r.URL.RawQuery = [] →
      (forwarded order proxyUrl cred r).URL.RawQuery = proxyUrl.RawQuery) ∧
    (proxyUrl.RawQuery ≠ [] → r.URL.RawQuery ≠ [] →
      (forwarded order proxyUrl cred r).URL.RawQuery =
        proxyUrl.RawQuery ++ '&' :: r.URL.RawQuery) ∧
    (proxyUrl.RawPath = [] → r.URL.RawPath = [] →
      strings.HasSuffix proxyUrl.Path ['/'] = true →
      (forwarded order proxyUrl cred r).URL.Path = proxyUrl.Path ++ r.URL.Path.drop 1) ∧
    (proxyUrl.RawPath = [] → r.URL.RawPath = [] →
      (forwarded order proxyUrl cred r).URL.RawPath = []) ∧
    (¬ (proxyUrl.RawPath = [] ∧ r.URL.RawPath = []) →
      strings.HasSuffix proxyUrl.EscapedPath ['/'] = false →
      (forwarded order proxyUrl cred r).URL.Path = proxyUrl.Path ++ r.URL.Path ∧
      (forwarded order proxyUrl cred r).URL.RawPath =
        proxyUrl.EscapedPath ++ r.URL.EscapedPath) ∧
    (¬ (proxyUrl.RawPath = [] ∧ r.URL.RawPath = []) →
      strings.HasSuffix proxyUrl.EscapedPath ['/'] = true →
      (forwarded order proxyUrl cred r).URL.Path = proxyUrl.Path ++ r.URL.Path.drop 1 ∧
      (forwarded order proxyUrl cred r).URL.RawPath =
        proxyUrl.EscapedPath ++ (r.URL.EscapedPath).drop 1) := by
  have hU := forwarded_URL order proxyUrl cred r
  have hF := handler_frame order proxyUrl cred r
  have hE : ({ r.URL with Host := proxyUrl.Host, Scheme := proxyUrl.Scheme } : URL).EscapedPath =
      r.URL.EscapedPath := url.EscapedPath_congr _ _ rfl rfl
  have hJ := httputil.joinURLPath_rooted proxyUrl
    { r.URL with Host := proxyUrl.Host, Scheme := proxyUrl.Scheme } hrooted hraw
  rw [hE] at hJ
  have hPath : (forwarded order proxyUrl cred r).URL.Path =
      (httputil.joinURLPath proxyUrl
        { r.URL with Host := proxyUrl.Host, Scheme := proxyUrl.Scheme }).1 := by rw [hU]
  have hRaw : (forwarded order proxyUrl cred r).URL.RawPath =
      (httputil.joinURLPath proxyUrl
        { r.URL with Host := proxyUrl.Host, Scheme := proxyUrl.Scheme }).2 := by rw [hU]
  have hQ : (forwarded order proxyUrl cred r).URL.RawQuery =
      if proxyUrl.RawQuery = [] ∨ r.URL.RawQuery = [] then proxyUrl.RawQuery ++ r.URL.RawQuery
      else proxyUrl.RawQuery ++ ['&'] ++ r.URL.RawQuery := by rw [hU]
  rw [hJ] at hPath hRaw
  refine ⟨by rw [hU], by rw [hU], hF.2.1, hF.2.2.1, hF.2.2.2, fun hq => ?_, fun ha hp => ?_,
    fun ha hb hs => ?_, fun hq => ?_, fun hq1 hq2 => ?_, fun ha hb hs => ?_, fun ha hb => ?_,
    fun hn hs => ?_, fun hn hs => ?_⟩
  · rw [hQ]
    simp [hq]
  · have hj := httputil.joinURLPath_root proxyUrl
      { r.URL with Host := proxyUrl.Host, Scheme := proxyUrl.Scheme } ha hp hrooted hraw
    have hP : (forwarded order proxyUrl cred r).URL.Path = r.URL.Path := by
      rw [hU]
      show (httputil.joinURLPath proxyUrl _).1 = _
      rw [hj]
    have hR : (forwarded order proxyUrl cred r).URL.RawPath =
        if r.URL.RawPath = [] then [] else r.URL.EscapedPath := by
      rw [hU]
      show (httputil.joinURLPath proxyUrl _).2 = _
      rw [hj]
      exact if_congr Iff.rfl rfl (url.EscapedPath_congr _ _ rfl rfl)
    refine ⟨hP, ?_⟩
    by_cases h0 : r.URL.RawPath = []
    · rw [if_pos h0] at hR
      exact url.EscapedPath_congr _ _ hP (hR.trans h0.symm)
    · rw [if_neg h0] at hR
      exact url.EscapedPath_idem _ _ hP hR
  · have hs2 : ¬ strings.HasSuffix proxyUrl.Path ['/'] = true := by rw [hs]; decide
    rw [hPath, if_pos ⟨ha, hb⟩, if_neg hs2]
  · rw [hQ]
    simp [hq]
  · rw [hQ, if_neg (fun h => h.elim hq1 hq2)]
    simp
  · rw [hPath, if_pos ⟨ha, hb⟩, if_pos hs]
  · rw [hRaw, if_pos ⟨ha, hb⟩]
  · have hs2 : ¬ strings.HasSuffix proxyUrl.EscapedPath ['/'] = true := by rw [hs]; decide
    rw [hPath, hRaw, if_neg hn, if_neg hs2]
    exact ⟨rfl, rfl⟩
  · rw [hPath, hRaw, if_neg hn, if_pos hs]
    exact ⟨rfl, rfl⟩

/-- C5 as stated fails for the validated upstream `https://host/base`: the request
`GET /widgets/7` is forwarded with path `/base/widgets/7`; and an upstream query is put in
front of the inbound query. -/
theorem forwarded_rewrite_counterexample :
    Effect.NewSingleHostReverseProxy hostBase ∈
      main parseTable "https://host/base".toList 8080 none ∧
    (forwarded [] hostBase none getWidgets).URL.Path = "/base/widgets/7".toList ∧
    (forwarded [] hostBase none getWidgets).URL.Path ≠ getWidgets.URL.Path ∧
    (forwarded [] { localhost9000 with RawQuery := "v=1".toList } none
      { getWidgets with URL := { getWidgets.URL with RawQuery := "a=b".toList } }).URL.RawQuery =
      "v=1&a=b".toList := by
  decide

/-- C5, amended, on `GET /widgets/7` and the upstream `http://localhost:9000`: the request
is forwarded to `http://localhost:9000` with Host `localhost:9000`, the path
`/widgets/7` unchanged and `staging` after `client` under `X-Env`; and on
`GET /widgets/7?a=b` and the upstream `https://host/base/?v=1`: the path is
`/base/widgets/7` and the query `v=1&a=b`. -/
theorem forwarded_rewrite_witness :
    (forwarded [("X-Env".toList, "staging".toList)] localhost9000 none getWidgets).URL.Scheme =
      "http".toList ∧
    (forwarded [("X-Env".toList, "staging".toList)] localhost9000 none getWidgets).Host =
      "localhost:9000".toList ∧
    (forwarded [("X-Env".toList, "staging".toList)] localhost9000 none getWidgets).URL.Path =
      "/widgets/7".toList ∧
    (forwarded [("X-Env".toList, "staging".toList)] localhost9000 none getWidgets).Header
      "X-Env".toList = some ["client".toList, "staging".toList] ∧
    (forwarded [] hostBaseSlash none getWidgetsQuery).URL.Path = "/base/widgets/7".toList ∧
    (forwarded [] hostBaseSlash none getWidgetsQuery).URL.RawQuery = "v=1&a=b".toList :=
  ⟨(forwarded_rewrite [("X-Env".toList, "staging".toList)] localhost9000 none getWidgets
      (by decide) (Or.inl rfl)).1,
   (forwarded_rewrite [("X-Env".toList, "staging".toList)] localhost9000 none getWidgets
      (by decide) (Or.inl rfl)).2.2.1,
   ((forwarded_rewrite [("X-Env".toList, "staging".toList)] localhost9000 none getWidgets
      (by decide) (Or.inl rfl)).2.2.2.2.2.2.1 rfl (Or.inl rfl)).1,
   by decide,
   ((forwarded_rewrite [] hostBaseSlash none getWidgetsQuery (by decide)
      (Or.inl rfl)).2.2.2.2.2.2.2.2.2.2.1 rfl rfl (by decide)).trans (by decide),
   ((forwarded_rewrite [] hostBaseSlash none getWidgetsQuery (by decide)
      (Or.inl rfl)).2.2.2.2.2.2.2.2.2.1 (by decide) (by decide)).trans (by decide)⟩

/-! ### Cookie capture -/

theorem captureLoop_first (pre post : List Cookie) (c : Cookie) (hname : c.Name = cfName)
    (hpre : ∀ d ∈ pre, d.Name ≠ cfName) : captureLoop none (pre ++ c :: post) = some c := by
  induction pre with
  | nil => simp [captureLoop, hname]
  | cons d t ih =>
    have hd : ¬ d.Name = cfName := hpre d (List.mem_cons_self _ _)
    simp only [List.cons_append, captureLoop, hd, if_false]
    exact ih (fun x hx => hpre x (List.mem_cons_of_mem _ hx))

theorem captureLoop_none (held : Option Cookie) (l : List Cookie)
    (h : ∀ d ∈ l, d.Name ≠ cfName) : captureLoop held l = held := by
  induction l with
  | nil => rfl
  | cons d t ih =>
    have hd : ¬ d.Name = cfName := h d (List.mem_cons_self _ _)
    simp only [captureLoop, hd, if_false]
    exact ih (fun x hx => h x (List.mem_cons_of_mem _ hx))

theorem ModifyResponse_held (parse : GoString → Option Cookie) (c : Cookie) (resp : Response) :
    (ModifyResponse parse (some c) resp).cfAuthorizationCookie = some c := rfl

theorem handler_Header (order : List (GoString × GoString)) (proxyUrl : URL)
    (cred : Option Cookie) (r : Request) :
    (handler order proxyUrl cred r).Header =
      (attachCookie cred { r with Header := addHeaders order r.Header }).Header := rfl

theorem Header.Set_apply (h : Header) (key value x : GoString) :
    Header.Set h key value x =
      if x = textproto.CanonicalMIMEHeaderKey key then some [value] else h x := rfl

theorem canonical_Cookie :
    textproto.CanonicalMIMEHeaderKey "Cookie".toList = "Cookie".toList := by decide

theorem AddCookie_Header (r : Request) (c : Cookie) :
    (http.AddCookie r c).Header =
      Header.Set r.Header "Cookie".toList
        (cookieLead (Header.Get r.Header "Cookie".toList) ++ http.cookiePair c) := by
  unfold http.AddCookie cookieLead
  by_cases h : Header.Get r.Header "Cookie".toList ≠ []
  · rw [if_pos h, if_pos h]
  · rw [if_neg h, if_neg h]
    rfl

theorem cookiePair_cfName (c : Cookie) (hname : c.Name = cfName) :
    http.cookiePair c = cfName ++ ['='] ++ http.sanitizeCookieValue c.Value c.Quoted := by
  have h : http.sanitizeCookieName cfName = cfName := by decide
  simp only [http.cookiePair, hname, h]

theorem http.mem_readSetCookies (parse : GoString → Option Cookie) (h : Header) (c : Cookie)
    (hc : c ∈ http.readSetCookies parse h) :
    ∃ line ∈ (h "Set-Cookie".toList).getD [], parse line = some c := by
  unfold http.readSetCookies at hc
  simp only at hc
  split at hc
  · simp at hc
  · split at hc
    · simp at hc
    · exact List.mem_filterMap.mp hc

theorem sanitizeCookieValue_clean (v : GoString)
    (hv : ∀ ch ∈ v, http.validCookieValueByte ch = true ∧ ch ≠ ' ' ∧ ch ≠ ',') :
    http.sanitizeCookieValue v false = v := by
  have h1 : v.all http.validCookieValueByte = true := by
    rw [List.all_eq_true]
    exact fun x hx => (hv x hx).1
  have h2 : v.any (fun c => c == ' ' || c == ',') = false := by
    rw [List.any_eq_false]
    intro x hx
    have := hv x hx
    simp [this.2.1, this.2.2]
  simp [http.sanitizeCookieValue, http.sanitizeOrWarn, h1, h2]

/-- The `Cookie` header of a request rewritten while the cookie `c` is held, and the
other header keys. -/
theorem handler_Cookie (order : List (GoString × GoString)) (proxyUrl : URL) (c : Cookie)
    (r : Request) :
    (handler order proxyUrl (some c) r).Header "Cookie".toList =
      some [cookieLead (Header.Get (addHeaders order r.Header) "Cookie".toList) ++
        http.cookiePair c] ∧
    ∀ k, k ≠ "Cookie".toList →
      (handler order proxyUrl (some c) r).Header k = addHeaders order r.Header k := by
  rw [handler_Header]
  have hS : (attachCookie (some c) { r with Header := addHeaders order r.Header }).Header =
      Header.Set (addHeaders order r.Header) "Cookie".toList
        (cookieLead (Header.Get (addHeaders order r.Header) "Cookie".toList) ++
          http.cookiePair c) := AddCookie_Header _ c
  rw [hS]
  constructor
  · rw [Header.Set_apply, canonical_Cookie, if_pos rfl]
  · intro k hk
    rw [Header.Set_apply, canonical_Cookie, if_neg hk]

theorem sanitizeCookieValue_valid (v : GoString) (quoted : Bool)
    (hv : ∀ ch ∈ v, http.validCookieValueByte ch = true) :
    http.sanitizeCookieValue v quoted =
      if (v.any (fun ch => ch == ' ' || ch == ',') || quoted) = true then ['"'] ++ v ++ ['"']
      else v := by
  have h1 : v.all http.validCookieValueByte = true := by
    rw [List.all_eq_true]
    exact hv
  simp only [http.sanitizeCookieValue, http.sanitizeOrWarn, h1, if_true]

theorem http.parseCookieValue_valid (raw : GoString) (allow : Bool)
    (h : (http.parseCookieValue raw allow).2.2 = true) :
    ∀ ch ∈ (http.parseCookieValue raw allow).1, http.validCookieValueByte ch = true := by
  unfold http.parseCookieValue at h ⊢
  dsimp only at h ⊢
  split_ifs at h ⊢
  all_goals exact List.all_eq_true.mp (by assumption)

/-- A cookie read by the model of `http.ParseSetCookie` has a value of valid bytes only. -/
theorem http.ParseSetCookie_value_valid (line : GoString) (c : Cookie)
    (h : http.ParseSetCookie line = some c) :
    ∀ ch ∈ c.Value, http.validCookieValueByte ch = true := by
  unfold http.ParseSetCookie at h
  dsimp only at h
  split_ifs at h with h1 h2 h3 h4
  cases h
  apply http.parseCookieValue_valid
  simpa using h4

theorem http.Cookies_of_count (parse : GoString → Option Cookie) (resp : Response) :
    (((resp.Header "Set-Cookie".toList).getD []).length ≤ 3000 →
      http.Cookies parse resp = ((resp.Header "Set-Cookie".toList).getD []).filterMap parse) ∧
    (3000 < ((resp.Header "Set-Cookie".toList).getD []).length →
      http.Cookies parse resp = []) := by
  constructor
  · intro hle
    have hw : http.cookieNumWithinMax ((resp.Header "Set-Cookie".toList).getD []).length = true := by
      simp only [http.cookieNumWithinMax, http.defaultCookieMaxNum, decide_eq_true_eq]
      exact hle
    unfold http.Cookies http.readSetCookies
    dsimp only
    rw [hw]
    by_cases h0 : ((resp.Header "Set-Cookie".toList).getD []).length = 0
    · rw [if_pos h0, List.length_eq_zero.mp h0]
      rfl
    · rw [if_neg h0]
      rfl
  · intro hgt
    have hw : http.cookieNumWithinMax ((resp.Header "Set-Cookie".toList).getD []).length = false := by
      simp only [http.cookieNumWithinMax, http.defaultCookieMaxNum, decide_eq_false_iff_not]
      omega
    unfold http.Cookies http.readSetCookies
    dsimp only
    rw [hw]
    by_cases h0 : ((resp.Header "Set-Cookie".toList).getD []).length = 0
    · rw [if_pos h0]
    · rw [if_neg h0]
      rfl

/-- C6, amended: the cookies of a response, as `Cookies()` returns them, are the
`Set-Cookie` lines that parse, in header order, when there are at most 3000 lines, and
none when there are more, in which case the hook leaves the credential as it was.  From
the state with no credential, when those cookies hold one named exactly
`CF_Authorization`, the hook leaves the first such cookie (in that order) as the held
credential; the next request handled is handed on with the pair `CF_Authorization=`
followed by the serialised value of that cookie as (the end of) its `Cookie` header,
every other header key being as the injection loop left it; for a value of valid bytes
the serialised value is the value itself, wrapped in double quotes when it was quoted
when read or holds a space or a comma; and while no credential is held the handler adds
no cookie: the header it hands on is the one the injection loop produced. -/
theorem capture_first (parse : GoString → Option Cookie) (proxyUrl : URL) (resp : Response)
    (pre post : List Cookie) (c : Cookie)
    (hcookies : http.Cookies parse resp = pre ++ c :: post) (hname : c.Name = cfName)
    (hpre : ∀ d ∈ pre, d.Name ≠ cfName) :
    (ModifyResponse parse none resp).cfAuthorizationCookie = some c ∧
    (∀ order r,
      (run parse proxyUrl ProxyState.init [.response resp, .request order r]).served =
        [handler order proxyUrl (some c) r] ∧
      (handler order proxyUrl (some c) r).Header "Cookie".toList =
        some [cookieLead (Header.Get (addHeaders order r.Header) "Cookie".toList) ++
          (cfName ++ ['='] ++ http.sanitizeCookieValue c.Value c.Quoted)] ∧
      (∀ k, k ≠ "Cookie".toList →
        (handler order proxyUrl (some c) r).Header k = addHeaders order r.Header k)) ∧
    (c.Quoted = false →
      (∀ ch ∈ c.Value, http.validCookieValueByte ch = true ∧ ch ≠ ' ' ∧ ch ≠ ',') →
      http.sanitizeCookieValue c.Value c.Quoted = c.Value) ∧
    (∀ order r,
      (run parse proxyUrl ProxyState.init [.request order r]).served =
        [handler order proxyUrl none r] ∧
      (handler order proxyUrl none r).Header = addHeaders order r.Header) ∧
    ((∀ ch ∈ c.Value, http.validCookieValueByte ch = true) → ∀ order r,
      (handler order proxyUrl (some c) r).Header "Cookie".toList =
        some [cookieLead (Header.Get (addHeaders order r.Header) "Cookie".toList) ++
          (cfName ++ ['='] ++
            (if (c.Value.any (fun ch => ch == ' ' || ch == ',') || c.Quoted) = true then
              ['"'] ++ c.Value ++ ['"']
             else c.Value))]) ∧
    (∀ other : Response,
      (((other.Header "Set-Cookie".toList).getD []).length ≤ 3000 →
        http.Cookies parse other =
          ((other.Header "Set-Cookie".toList).getD []).filterMap parse) ∧
      (3000 < ((other.Header "Set-Cookie".toList).getD []).length →
        http.Cookies parse other = [] ∧
        ∀ cred, (ModifyResponse parse cred other).cfAuthorizationCookie = cred)) := by
  have hcap : (ModifyResponse parse none resp).cfAuthorizationCookie = some c := by
    simp only [ModifyResponse, hcookies]
    exact captureLoop_first pre post c hname hpre
  have hhdr : ∀ order r, (handler order proxyUrl (some c) r).Header "Cookie".toList =
      some [cookieLead (Header.Get (addHeaders order r.Header) "Cookie".toList) ++
        (cfName ++ ['='] ++ http.sanitizeCookieValue c.Value c.Quoted)] := by
    intro order r
    rw [(handler_Cookie order proxyUrl c r).1, cookiePair_cfName c hname]
  refine ⟨hcap, fun order r => ⟨?_, hhdr order r, (handler_Cookie order proxyUrl c r).2⟩,
    fun hq hv => ?_, fun order r => ⟨rfl, rfl⟩, fun hv order r => ?_, fun other => ?_⟩
  · simp only [run, List.foldl, step, ProxyState.init, hcap, List.nil_append]
  · rw [hq]
    exact sanitizeCookieValue_clean c.Value hv
  · rw [hhdr order r, sanitizeCookieValue_valid c.Value c.Quoted hv]
  · have hC := http.Cookies_of_count parse other
    refine ⟨hC.1, fun hgt => ⟨hC.2 hgt, fun cred => ?_⟩⟩
    cases cred with
    | none =>
      simp only [ModifyResponse, hC.2 hgt]
      rfl
    | some d => rfl

/-- C6, amended, on `loginResponse`, whose `Set-Cookie` lines are an unparsable line, a
`session` cookie, `CF_Authorization=abc123` and `CF_Authorization=zzz`: the credential
held after the hook is the cookie with value `abc123`, and the next `GET /widgets/7` is
handed on with `Cookie: CF_Authorization=abc123`. -/
theorem capture_first_witness :
    http.Cookies http.ParseSetCookie loginResponse = [sessionCookie] ++ abc123 :: [zzz] ∧
    (ModifyResponse http.ParseSetCookie none loginResponse).cfAuthorizationCookie = some abc123 ∧
    (handler [] localhost9000 (some abc123) getWidgets).Header "Cookie".toList =
      some ["CF_Authorization=abc123".toList] :=
  ⟨by decide,
   (capture_first http.ParseSetCookie localhost9000 loginResponse [sessionCookie] [zzz] abc123
      (by decide) rfl (by decide)).1,
   ((capture_first http.ParseSetCookie localhost9000 loginResponse [sessionCookie] [zzz] abc123
      (by decide) rfl (by decide)).2.2.2.2.1 (by decide) [] getWidgets).trans (by decide)⟩

/-- C6 as stated fails on `floodResponse`, whose 3001 `Set-Cookie` lines begin with
`CF_Authorization=abc123`, a line that parses to a cookie named exactly
`CF_Authorization`: `Cookies()` returns no cookie for it, and from the state with no
credential the hook leaves no credential held. -/
theorem capture_first_counterexample :
    floodResponse.Header "Set-Cookie".toList = some floodLines ∧
    floodLines.head? = some "CF_Authorization=abc123".toList ∧
    (http.ParseSetCookie "CF_Authorization=abc123".toList).map (fun c => (c.Name, c.Value)) =
      some (cfName, "abc123".toList) ∧
    floodLines.length = 3001 ∧
    http.Cookies http.ParseSetCookie floodResponse = [] ∧
    (ModifyResponse http.ParseSetCookie none floodResponse).cfAuthorizationCookie = none := by
  have hH : floodResponse.Header "Set-Cookie".toList = some floodLines := by
    show (if "Set-Cookie".toList = "Set-Cookie".toList then some floodLines else none) = _
    exact if_pos rfl
  have hlen : floodLines.length = 3001 := by
    simp only [floodLines, List.length_cons, List.length_replicate]
  have hC : http.Cookies http.ParseSetCookie floodResponse = [] := by
    apply (http.Cookies_of_count http.ParseSetCookie floodResponse).2
    rw [hH]
    show 3000 < floodLines.length
    rw [hlen]
    decide
  refine ⟨hH, rfl, by decide, hlen, hC, ?_⟩
  simp only [ModifyResponse, hC]
  rfl

/-! ### Capture once -/

theorem step_held (parse : GoString → Option Cookie) (proxyUrl : URL) (s : ProxyState)
    (c : Cookie) (h : s.cfAuthorizationCookie = some c) (e : Event) :
    (step parse proxyUrl s e).cfAuthorizationCookie = some c ∧
    (step parse proxyUrl s e).served = s.served ++ handledWith proxyUrl (some c) [e] := by
  cases e with
  | request order r => simp [step, handledWith, h]
  | response resp => simp [step, handledWith, h, ModifyResponse]

theorem run_held (parse : GoString → Option Cookie) (proxyUrl : URL) (events : List Event)
    (s : ProxyState) (c : Cookie) (h : s.cfAuthorizationCookie = some c) :
    (run parse proxyUrl s events).cfAuthorizationCookie = some c ∧
    (run parse proxyUrl s events).served = s.served ++ handledWith proxyUrl (some c) events := by
  induction events generalizing s with
  | nil => simp [run, handledWith, h]
  | cons e t ih =>
    have hs := step_held parse proxyUrl s c h e
    have ht := ih (step parse proxyUrl s e) hs.1
    simp only [run, List.foldl] at ht ⊢
    refine ⟨ht.1, ?_⟩
    rw [ht.2, hs.2]
    cases e with
    | request order r => simp [handledWith]
    | response resp => simp [handledWith]

theorem run_append (parse : GoString → Option Cookie) (proxyUrl : URL) (s : ProxyState)
    (a b : List Event) :
    run parse proxyUrl s (a ++ b) = run parse proxyUrl (run parse proxyUrl s a) b := by
  simp [run, List.foldl_append]

theorem writes_held (parse : GoString → Option Cookie) (proxyUrl : URL) (events : List Event)
    (s : ProxyState) (c : Cookie) (h : s.cfAuthorizationCookie = some c) :
    writes parse proxyUrl s events = 0 := by
  induction events generalizing s with
  | nil => rfl
  | cons e t ih =>
    have hs := (step_held parse proxyUrl s c h e).1
    simp only [writes, hs, h, if_true, ih _ hs]

theorem writes_le_one (parse : GoString → Option Cookie) (proxyUrl : URL) (events : List Event)
    (s : ProxyState) : writes parse proxyUrl s events ≤ 1 := by
  induction events generalizing s with
  | nil => simp [writes]
  | cons e t ih =>
    simp only [writes]
    by_cases hsame : (step parse proxyUrl s e).cfAuthorizationCookie = s.cfAuthorizationCookie
    · rw [if_pos hsame]
      have := ih (step parse proxyUrl s e)
      omega
    · rw [if_neg hsame]
      cases hc : (step parse proxyUrl s e).cfAuthorizationCookie with
      | none =>
        cases hs : s.cfAuthorizationCookie with
        | none => rw [hc, hs] at hsame; exact absurd rfl hsame
        | some c => rw [(step_held parse proxyUrl s c hs e).1] at hc; cases hc
      | some c =>
        rw [writes_held parse proxyUrl t _ c hc]

theorem handledWith_attached (proxyUrl : URL) (c : Cookie) (events : List Event) :
    ∀ out ∈ handledWith proxyUrl (some c) events,
      ∃ lead, out.Header "Cookie".toList = some [lead ++ http.cookiePair c] := by
  induction events with
  | nil => simp [handledWith]
  | cons e t ih =>
    cases e with
    | request order r =>
      intro out hout
      simp only [handledWith, List.mem_cons] at hout
      rcases hout with rfl | hout
      · exact ⟨_, (handler_Cookie order proxyUrl c r).1⟩
      · exact ih out hout
    | response resp =>
      intro out hout
      exact ih out (by simpa [handledWith] using hout)

/-- C7: in a run of request and response steps from the start state, once the held
credential is some cookie `c` it is `c` after every later step, whatever those steps are;
the requests handed on from then on are exactly those the handler produces with `c` held,
each with the pair of `c` at the end of its `Cookie` header; and over the whole run the
credential changes at most once. -/
theorem capture_once (parse : GoString → Option Cookie) (proxyUrl : URL)
    (before after : List Event) (c : Cookie)
    (hheld : (run parse proxyUrl ProxyState.init before).cfAuthorizationCookie = some c) :
    (run parse proxyUrl ProxyState.init (before ++ after)).cfAuthorizationCookie = some c ∧
    (run parse proxyUrl ProxyState.init (before ++ after)).served =
      (run parse proxyUrl ProxyState.init before).served ++
        handledWith proxyUrl (some c) after ∧
    (∀ out ∈ handledWith proxyUrl (some c) after,
      ∃ lead, out.Header "Cookie".toList = some [lead ++ http.cookiePair c]) ∧
    writes parse proxyUrl ProxyState.init (before ++ after) ≤ 1 := by
  rw [run_append]
  have h := run_held parse proxyUrl after _ c hheld
  exact ⟨h.1, h.2, handledWith_attached proxyUrl c after, writes_le_one _ _ _ _⟩

/-- C7 on the run: `loginResponse` is inspected, then a request is handled, a response
setting `CF_Authorization=rotated` is inspected, and a second request is handled.  The
credential held at the end is still the cookie with value `abc123`. -/
theorem capture_once_witness :
    (run http.ParseSetCookie localhost9000 ProxyState.init
      ([.response loginResponse] ++
        [.request [] getWidgets, .response rotatedResponse, .request [] getWidgets])
      ).cfAuthorizationCookie = some abc123 :=
  (capture_once http.ParseSetCookie localhost9000 [.response loginResponse]
    [.request [] getWidgets, .response rotatedResponse, .request [] getWidgets] abc123
    (by decide)).1

/-! ### The response hook -/

/-- C8: for every response and every credential state the hook returns no error and hands
back the response it was given, status, header and body as received; and when the
response has no cookie named `CF_Authorization` (no `Set-Cookie` header, only lines that
do not parse, or only cookies of other names) the held credential is unchanged as well. -/
theorem ModifyResponse_relays (parse : GoString → Option Cookie) (cred : Option Cookie)
    (resp : Response) :
    (ModifyResponse parse cred resp).err = none ∧
    (ModifyResponse parse cred resp).response = resp ∧
    ((∀ c ∈ http.Cookies parse resp, c.Name ≠ cfName) →
      (ModifyResponse parse cred resp).cfAuthorizationCookie = cred) ∧
    (resp.Header "Set-Cookie".toList = none →
      (ModifyResponse parse cred resp).cfAuthorizationCookie = cred) ∧
    ((∀ line ∈ (resp.Header "Set-Cookie".toList).getD [], parse line = none) →
      (ModifyResponse parse cred resp).cfAuthorizationCookie = cred) ∧
    ((∀ line ∈ (resp.Header "Set-Cookie".toList).getD [], ∀ c, parse line = some c →
        c.Name ≠ cfName) →
      (ModifyResponse parse cred resp).cfAuthorizationCookie = cred) := by
  have key : (∀ c ∈ http.Cookies parse resp, c.Name ≠ cfName) →
      (ModifyResponse parse cred resp).cfAuthorizationCookie = cred := by
    intro h
    cases cred with
    | none => exact captureLoop_none none _ h
    | some c => rfl
  refine ⟨rfl, rfl, key, fun h0 => key ?_, fun h1 => key ?_, fun h2 => key ?_⟩
  · intro c hc
    obtain ⟨line, hl, _⟩ := http.mem_readSetCookies parse resp.Header c hc
    rw [h0] at hl
    simp at hl
  · intro c hc
    obtain ⟨line, hl, hp⟩ := http.mem_readSetCookies parse resp.Header c hc
    rw [h1 line hl] at hp
    cases hp
  · intro c hc
    obtain ⟨line, hl, hp⟩ := http.mem_readSetCookies parse resp.Header c hc
    exact h2 line hl c hp

/-- C8 on a response whose only `Set-Cookie` lines are an unparsable line and a cookie of
another name, with `abc123` not yet held and with it held: no error, and the credential
is as before. -/
theorem ModifyResponse_relays_witness :
    (ModifyResponse http.ParseSetCookie none otherCookies).cfAuthorizationCookie = none ∧
    (ModifyResponse http.ParseSetCookie (some abc123) otherCookies).cfAuthorizationCookie =
      some abc123 ∧
    (ModifyResponse http.ParseSetCookie none otherCookies).err = none :=
  ⟨(ModifyResponse_relays http.ParseSetCookie none otherCookies).2.2.1 (by decide),
   (ModifyResponse_relays http.ParseSetCookie (some abc123) otherCookies).2.2.1 (by decide),
   (ModifyResponse_relays http.ParseSetCookie none otherCookies).1⟩

/-! ### Determinism of the rewrite -/

theorem Header.Add_comm (h : Header) (k1 v1 k2 v2 : GoString)
    (hne : textproto.CanonicalMIMEHeaderKey k1 ≠ textproto.CanonicalMIMEHeaderKey k2) :
    Header.Add (Header.Add h k1 v1) k2 v2 = Header.Add (Header.Add h k2 v2) k1 v1 := by
  have hne2 : ¬ textproto.CanonicalMIMEHeaderKey k2 = textproto.CanonicalMIMEHeaderKey k1 :=
    fun e => hne e.symm
  funext x
  by_cases hx1 : x = textproto.CanonicalMIMEHeaderKey k1
  · subst hx1
    simp [Header.Add, hne, hne2]
  · by_cases hx2 : x = textproto.CanonicalMIMEHeaderKey k2
    · subst hx2
      simp [Header.Add, hne, hne2]
    · simp [Header.Add, hx1, hx2]

theorem addHeaders_perm (order1 order2 : List (GoString × GoString)) (hdr : Header)
    (hperm : order1.Perm order2)
    (hcanon : (order1.map (fun kv => textproto.CanonicalMIMEHeaderKey kv.1)).Nodup) :
    addHeaders order1 hdr = addHeaders order2 hdr := by
  unfold addHeaders
  apply List.Perm.foldl_eq' hperm
  intro x hx y hy z
  by_cases hxy : textproto.CanonicalMIMEHeaderKey x.1 = textproto.CanonicalMIMEHeaderKey y.1
  · have : x = y := List.inj_on_of_nodup_map hcanon hx hy hxy
    rw [this]
  · exact Header.Add_comm z x.1 x.2 y.1 y.2 hxy

theorem headerFlags.assign_keys (h : headerFlags) (k v : GoString) :
    ∀ x, x ∈ (h.assign k v).map Prod.fst ↔ x = k ∨ x ∈ h.map Prod.fst := by
  induction h with
  | nil => intro x; simp [headerFlags.assign]
  | cons e t ih =>
    obtain ⟨k1, v1⟩ := e
    intro x
    by_cases hk : k1 = k
    · simp [headerFlags.assign, hk]
    · simp only [headerFlags.assign, hk, if_false, List.map_cons, List.mem_cons, ih x]
      tauto

/-- The keys of the map stay distinct under assignment. -/
theorem headerFlags.assign_nodup (h : headerFlags) (k v : GoString)
    (hn : (h.map Prod.fst).Nodup) : ((h.assign k v).map Prod.fst).Nodup := by
  induction h with
  | nil => simp [headerFlags.assign]
  | cons e t ih =>
    obtain ⟨k1, v1⟩ := e
    rw [List.map_cons, List.nodup_cons] at hn
    by_cases hk : k1 = k
    · subst hk
      simpa [headerFlags.assign] using hn
    · simp only [headerFlags.assign, hk, if_false, List.map_cons, List.nodup_cons]
      refine ⟨?_, ih hn.2⟩
      rw [headerFlags.assign_keys]
      rintro (e | e)
      · exact hk e
      · exact hn.1 e

theorem headerFlags.Set_nodup (h : headerFlags) (s : GoString) (hn : (h.map Prod.fst).Nodup) :
    (((h.Set s).1).map Prod.fst).Nodup := by
  by_cases hs : ':' ∈ s
  · obtain ⟨pre, post, e, hpre⟩ := strings.exists_first_split ':' s hs
    subst e
    rw [headerFlags.Set_of_split h pre post hpre]
    exact headerFlags.assign_nodup h _ _ hn
  · rw [headerFlags.Set_of_no_colon h s hs]
    exact hn

/-- Every map built by `Set` calls from the empty map has distinct keys. -/
theorem setAll_nodup (specs : List GoString) : ((setAll specs).map Prod.fst).Nodup := by
  have gen : ∀ (l : List GoString) (h : headerFlags), (h.map Prod.fst).Nodup →
      ((l.foldl (fun h spec => (h.Set spec).1) h).map Prod.fst).Nodup := by
    intro l
    induction l with
    | nil => intro h hn; exact hn
    | cons s t ih => intro h hn; exact ih _ (headerFlags.Set_nodup h s hn)
  exact gen specs [] (by simp)

/-- C9, amended: for a configured header map whose names have pairwise distinct canonical
forms, any two iteration orders of the map give, on the same request with no credential
held, the same rewritten request (same header names, values and value order, same Host,
same scheme) and the same forwarded request.  For every configured map, clash or not, the
two rewritten requests have the same Host and the same scheme, and the values under each
header name are the caller's values followed by the configured values of the names with
that canonical form, in the order the map was iterated. -/
theorem handler_deterministic (headers : headerFlags) (order1 order2 : List (GoString × GoString))
    (proxyUrl : URL) (r : Request)
    (h1 : rangeOrder headers order1) (h2 : rangeOrder headers order2) :
    ((headers.map (fun kv => textproto.CanonicalMIMEHeaderKey kv.1)).Nodup →
      handler order1 proxyUrl none r = handler order2 proxyUrl none r ∧
      forwarded order1 proxyUrl none r = forwarded order2 proxyUrl none r) ∧
    (handler order1 proxyUrl none r).Host = (handler order2 proxyUrl none r).Host ∧
    (handler order1 proxyUrl none r).URL.Scheme = (handler order2 proxyUrl none r).URL.Scheme ∧
    (∀ name,
      Header.Values (handler order1 proxyUrl none r).Header name =
        Header.Values r.Header name ++
          configuredValues order1 (textproto.CanonicalMIMEHeaderKey name) ∧
      Header.Values (handler order2 proxyUrl none r).Header name =
        Header.Values r.Header name ++
          configuredValues order2 (textproto.CanonicalMIMEHeaderKey name)) := by
  refine ⟨fun hcanon => ?_, rfl, rfl, fun name =>
    ⟨Header.Values_addHeaders order1 r.Header name, Header.Values_addHeaders order2 r.Header name⟩⟩
  have hperm : order1.Perm order2 := h1.trans h2.symm
  have hc1 : (order1.map (fun kv => textproto.CanonicalMIMEHeaderKey kv.1)).Nodup :=
    (List.Perm.nodup_iff (List.Perm.map _ h1)).mpr hcanon
  have hA := addHeaders_perm order1 order2 r.Header hperm hc1
  have hH : handler order1 proxyUrl none r = handler order2 proxyUrl none r := by
    simp only [handler, hA]
  exact ⟨hH, by simp only [forwarded, hH]⟩

/-- C9 as stated fails on the map built from `-header "x-env: a" -header "X-Env: b"`: the
two iteration orders of that map rewrite the request `GET /widgets/7` (carrying
`X-Env: client`) to different value orders under `X-Env`. -/
theorem handler_deterministic_counterexample :
    caseClash = (headerFlags.Set (headerFlags.Set [] "x-env: a".toList).1 "X-Env: b".toList).1 ∧
    rangeOrder caseClash caseClash ∧ rangeOrder caseClash caseClash.reverse ∧
    (handler caseClash localhost9000 none getWidgets).Header "X-Env".toList =
      some ["client".toList, "a".toList, "b".toList] ∧
    (handler caseClash.reverse localhost9000 none getWidgets).Header "X-Env".toList =
      some ["client".toList, "b".toList, "a".toList] ∧
    handler caseClash localhost9000 none getWidgets ≠
      handler caseClash.reverse localhost9000 none getWidgets :=
  ⟨rfl, List.Perm.refl _, List.reverse_perm _, by decide, by decide,
   fun h => absurd (congrArg (fun q => q.Header "X-Env".toList) h) (by decide)⟩

/-- C9, amended, on the map built from `-header "X-Env: staging" -header "Accept: */*"`:
its two iteration orders rewrite `GET /widgets/7` to the same request. -/
theorem handler_deterministic_witness :
    handler twoHeaders localhost9000 none getWidgets =
      handler twoHeaders.reverse localhost9000 none getWidgets ∧
    forwarded twoHeaders localhost9000 none getWidgets =
      forwarded twoHeaders.reverse localhost9000 none getWidgets :=
  (handler_deterministic twoHeaders twoHeaders twoHeaders.reverse localhost9000 getWidgets
    (List.Perm.refl _) (List.reverse_perm _)).1 (by decide)

/-! ### Concurrent handlers -/

theorem captureLoop_eq (held : Option Cookie) (l : List Cookie) :
    captureLoop held l =
      match captureLoop none l with
      | some c => some c
      | none => held := by
  induction l with
  | nil => rfl
  | cons d t ih =>
    by_cases hd : d.Name = cfName
    · simp [captureLoop, hd]
    · simp only [captureLoop, hd, if_false]
      exact ih

theorem captureLoop_some (held : Option Cookie) (l : List Cookie) (c : Cookie)
    (h : captureLoop none l = some c) : captureLoop held l = some c := by
  rw [captureLoop_eq, h]

theorem raceRun_cons (parse : GoString → Option Cookie) (proxyUrl : URL) (s : RaceState)
    (a : Action) (rest : List Action) :
    raceRun parse proxyUrl s (a :: rest) =
      raceRun parse proxyUrl (raceStep parse proxyUrl s a) rest := rfl

/-- A serialised hook call from a state with no call in flight acts as the hook run in one
piece. -/
theorem raceStep_serial (parse : GoString → Option Cookie) (proxyUrl : URL) (s : RaceState)
    (n : Nat) (resp : Response) (hp : s.passed = []) :
    (raceStep parse proxyUrl (raceStep parse proxyUrl s (.test n resp)) (.assign n)
      ).cfAuthorizationCookie =
      (ModifyResponse parse s.cfAuthorizationCookie resp).cfAuthorizationCookie ∧
    (raceStep parse proxyUrl (raceStep parse proxyUrl s (.test n resp)) (.assign n)).passed = [] ∧
    (raceStep parse proxyUrl (raceStep parse proxyUrl s (.test n resp)) (.assign n)).served =
      s.served ∧
    (raceStep parse proxyUrl (raceStep parse proxyUrl s (.test n resp)) (.assign n)).assigned =
      match s.cfAuthorizationCookie with
      | none => s.assigned ++ (captureLoop none (http.Cookies parse resp)).toList
      | some _ => s.assigned := by
  cases hc : s.cfAuthorizationCookie with
  | none =>
    simp [raceStep, hc, hp, List.lookup, ModifyResponse]
  | some c =>
    simp [raceStep, hc, hp, List.lookup, ModifyResponse]

theorem raceRun_serialise (parse : GoString → Option Cookie) (proxyUrl : URL)
    (events : List Event) :
    ∀ (n : Nat) (s : RaceState) (q : ProxyState), s.passed = [] →
      s.cfAuthorizationCookie = q.cfAuthorizationCookie → s.served = q.served →
      (s.cfAuthorizationCookie = none → s.assigned = []) → s.assigned.length ≤ 1 →
      (raceRun parse proxyUrl s (serialise n events)).cfAuthorizationCookie =
        (run parse proxyUrl q events).cfAuthorizationCookie ∧
      (raceRun parse proxyUrl s (serialise n events)).served =
        (run parse proxyUrl q events).served ∧
      (raceRun parse proxyUrl s (serialise n events)).passed = [] ∧
      (raceRun parse proxyUrl s (serialise n events)).assigned.length ≤ 1 := by
  induction events with
  | nil =>
    intro n s q hp hc hs _ hl
    exact ⟨hc, hs, hp, hl⟩
  | cons e t ih =>
    intro n s q hp hc hs ha hl
    cases e with
    | request order r =>
      simp only [serialise, raceRun_cons, run, List.foldl]
      exact ih (n + 1) (raceStep parse proxyUrl s (.handle order r))
        (step parse proxyUrl q (.request order r)) hp hc
        (by simp only [raceStep, step, hs, hc]) ha hl
    | response resp =>
      simp only [serialise, raceRun_cons, run, List.foldl]
      have h2 := raceStep_serial parse proxyUrl s n resp hp
      refine ih (n + 1) _ (step parse proxyUrl q (.response resp)) h2.2.1 ?_ ?_ ?_ ?_
      · rw [h2.1, hc]
        rfl
      · rw [h2.2.2.1, hs]
        rfl
      · intro hnone
        rw [h2.2.2.2]
        cases hcs : s.cfAuthorizationCookie with
        | none =>
          rw [h2.1, hcs] at hnone
          have hn : captureLoop none (http.Cookies parse resp) = none := hnone
          simp [ha hcs, hn]
        | some c =>
          rw [h2.1, hcs] at hnone
          cases hnone
      · rw [h2.2.2.2]
        cases hcs : s.cfAuthorizationCookie with
        | none =>
          simp only [ha hcs, List.nil_append]
          cases captureLoop none (http.Cookies parse resp) <;> simp
        | some c => exact hl

/-- C10, amended: in the transition system where the hook's test of line 89 and its
assignment of line 92 are separate steps, a serialised schedule (each hook call's test
and assignment with no other step between them) ends with the credential and the handed
on requests of the sequential run and assigns the credential at most once; but when two
hook calls, each on a response from which the hook alone would capture a cookie, both
make the test before either assigns, both assign, and the credential ends as the cookie
of the call that assigns last. -/
theorem hook_interleaving (parse : GoString → Option Cookie) (proxyUrl : URL) :
    (∀ events n,
      (raceRun parse proxyUrl RaceState.init (serialise n events)).cfAuthorizationCookie =
        (run parse proxyUrl ProxyState.init events).cfAuthorizationCookie ∧
      (raceRun parse proxyUrl RaceState.init (serialise n events)).served =
        (run parse proxyUrl ProxyState.init events).served ∧
      (raceRun parse proxyUrl RaceState.init (serialise n events)).assigned.length ≤ 1) ∧
    (∀ (i j : Nat) (r1 r2 : Response) (c1 c2 : Cookie), i ≠ j →
      (ModifyResponse parse none r1).cfAuthorizationCookie = some c1 →
      (ModifyResponse parse none r2).cfAuthorizationCookie = some c2 →
      ((raceRun parse proxyUrl RaceState.init
          [.test i r1, .test j r2, .assign i, .assign j]).cfAuthorizationCookie = some c2 ∧
        (raceRun parse proxyUrl RaceState.init
          [.test i r1, .test j r2, .assign i, .assign j]).assigned = [c1, c2]) ∧
      ((raceRun parse proxyUrl RaceState.init
          [.test i r1, .test j r2, .assign j, .assign i]).cfAuthorizationCookie = some c1 ∧
        (raceRun parse proxyUrl RaceState.init
          [.test i r1, .test j r2, .assign j, .assign i]).assigned = [c2, c1])) := by
  constructor
  · intro events n
    have h := raceRun_serialise parse proxyUrl events n RaceState.init ProxyState.init rfl rfl
      rfl (fun _ => rfl) (by simp [RaceState.init])
    exact ⟨h.1, h.2.1, h.2.2.2⟩
  · intro i j r1 r2 c1 c2 hij h1 h2
    have hji : ¬ j = i := fun e => hij e.symm
    have k1 : captureLoop none (http.Cookies parse r1) = some c1 := h1
    have k2 : captureLoop none (http.Cookies parse r2) = some c2 := h2
    have k12 : captureLoop (some c1) (http.Cookies parse r2) = some c2 :=
      captureLoop_some _ _ _ k2
    have k21 : captureLoop (some c2) (http.Cookies parse r1) = some c1 :=
      captureLoop_some _ _ _ k1
    have bji : (j == i) = false := by simp [hji]
    have bij : (i == j) = false := by simp [hij]
    constructor
    · simp [raceRun, raceStep, RaceState.init, List.lookup, List.filter, hij, hji, bij, bji,
        k1, k12, k2]
    · simp [raceRun, raceStep, RaceState.init, List.lookup, List.filter, hij, hji, bij, bji,
        k1, k21, k2]

/-- C10 as stated fails on the schedule in which the hook calls for `loginResponse` and
for `rotatedResponse` both test the variable before either assigns: the credential is
assigned twice, `abc123` and then `rotated`, and ends as `rotated`, while the same two
responses handled one after the other leave `abc123` held. -/
theorem hook_interleaving_counterexample :
    (raceRun http.ParseSetCookie localhost9000 RaceState.init
      [.test 1 loginResponse, .test 2 rotatedResponse, .assign 1, .assign 2]).assigned =
      [abc123, rotated] ∧
    (raceRun http.ParseSetCookie localhost9000 RaceState.init
      [.test 1 loginResponse, .test 2 rotatedResponse, .assign 1, .assign 2]
      ).cfAuthorizationCookie = some rotated ∧
    (run http.ParseSetCookie localhost9000 ProxyState.init
      [.response loginResponse, .response rotatedResponse]).cfAuthorizationCookie =
      some abc123 ∧
    abc123 ≠ rotated := by
  decide

/-- C10, amended, on `loginResponse` and `rotatedResponse`: with both tests made first the
credential ends as the cookie of the call that assigns last, `rotated` in one order and
`abc123` in the other. -/
theorem hook_interleaving_witness :
    (raceRun http.ParseSetCookie localhost9000 RaceState.init
      [.test 1 loginResponse, .test 2 rotatedResponse, .assign 1, .assign 2]
      ).cfAuthorizationCookie = some rotated ∧
    (raceRun http.ParseSetCookie localhost9000 RaceState.init
      [.test 1 loginResponse, .test 2 rotatedResponse, .assign 2, .assign 1]
      ).cfAuthorizationCookie = some abc123 :=
  ⟨((hook_interleaving http.ParseSetCookie localhost9000).2 1 2 loginResponse rotatedResponse
      abc123 rotated (by decide) (by decide) (by decide)).1.1,
   ((hook_interleaving http.ParseSetCookie localhost9000).2 1 2 loginResponse rotatedResponse
      abc123 rotated (by decide) (by decide) (by decide)).2.1⟩

end KubeApiProxy
